import Mathlib

/-!
Verification development for the Slate reMarkable-sync plugin.

The definitions below are shallow embeddings of the TypeScript sources:
`src/constants.ts`, `src/StrokeRenderer.ts`, `src/PdfGenerator.ts`,
`src/RemarkableClient.ts`, `src/RmParser.ts` and `src/SyncEngine.ts`.
JavaScript numbers that hold integers are modelled as `Nat`/`Int`; real-valued
arithmetic is modelled over `ℚ`; binary `float32`/`float64` fields decoded from
`.rm` files are modelled by their raw little-endian bit patterns (no theorem in
this file depends on the real value of a decoded float).  Fallible operations
(`DataView` reads, thrown parse errors, HTTP failures) are modelled with
`Option`/`Except`.
-/

set_option maxRecDepth 8000

namespace Slate

/-! ## Data model (src/types.ts) -/

/-- One decoded sample point of a stroke (`RmSegment` in types.ts).  Fields
that the binary decoders obtain from `float32` values carry the raw
little-endian bit pattern, cast into `ℚ`. -/
structure RmSegment where
  x : ℚ
  y : ℚ
  speed : ℚ
  direction : ℚ
  width : ℚ
  pressure : ℚ
deriving Repr, DecidableEq

/-- One pen stroke (`RmStroke` in types.ts). -/
structure RmStroke where
  pen : Nat
  color : Nat
  width : ℚ
  segments : List RmSegment
deriving Repr, DecidableEq

/-- One layer of strokes (`RmLayer` in types.ts). -/
structure RmLayer where
  strokes : List RmStroke
deriving Repr, DecidableEq

/-- An axis-aligned highlight rectangle (`RmHighlightRect` in types.ts);
coordinates come from `float64` values, modelled by raw bit patterns. -/
structure RmHighlightRect where
  x : ℚ
  y : ℚ
  w : ℚ
  h : ℚ
deriving Repr, DecidableEq

/-- A text highlight (`RmHighlight` in types.ts).  The `text` field is kept as
the raw byte sequence; the `TextDecoder` step of the source is not modelled. -/
structure RmHighlight where
  color : Nat
  text : List Nat
  rects : List RmHighlightRect
deriving Repr, DecidableEq

/-- A decoded page (`RmPage` in types.ts). -/
structure RmPage where
  layers : List RmLayer
  highlights : List RmHighlight
  version : Nat
deriving Repr, DecidableEq

/-! ## Pen constants (src/constants.ts) -/

/-- The ten normalized tool categories (`NormalizedPen` in constants.ts). -/
inductive NormalizedPen where
  | brush
  | pencil
  | ballpoint
  | marker
  | fineliner
  | highlighter
  | eraser
  | mechPencil
  | eraseArea
  | calligraphy
deriving Repr, DecidableEq

/-- Map a raw pen id to its normalized tool category
(`getNormalizedPen` in constants.ts); unrecognized ids default to fineliner. -/
def getNormalizedPen (penId : Nat) : NormalizedPen :=
  match penId with
  | 0 => .brush
  | 12 => .brush
  | 1 => .pencil
  | 14 => .pencil
  | 2 => .ballpoint
  | 15 => .ballpoint
  | 3 => .marker
  | 16 => .marker
  | 4 => .fineliner
  | 17 => .fineliner
  | 5 => .highlighter
  | 18 => .highlighter
  | 6 => .eraser
  | 7 => .mechPencil
  | 13 => .mechPencil
  | 8 => .eraseArea
  | 9 => .calligraphy
  | _ => .fineliner

/-- Base width multiplier per tool (`PEN_WIDTH_MULTIPLIER` in constants.ts).
The source is a total record over the ten categories, so the JS fallback
`?? 2` never fires. -/
def penWidthMultiplier (pen : NormalizedPen) : ℚ :=
  match pen with
  | .brush => 8
  | .pencil => 4
  | .ballpoint => 2
  | .marker => 6
  | .fineliner => 2
  | .highlighter => 12
  | .eraser => 16
  | .mechPencil => 4
  | .eraseArea => 1
  | .calligraphy => 4

/-- The normal-stroke color table (`STROKE_COLORS` in constants.ts). -/
def strokeColors (code : Nat) : Option String :=
  match code with
  | 0 => some "#000000"
  | 1 => some "#808080"
  | 2 => some "#ffffff"
  | 6 => some "#0062cc"
  | 7 => some "#d90707"
  | _ => none

/-- The highlighter color table (`HIGHLIGHTER_COLORS` in constants.ts). -/
def highlighterColors (code : Nat) : Option String :=
  match code with
  | 0 => some "#ffff00"
  | 1 => some "#ffff00"
  | 3 => some "#fefd60"
  | 4 => some "#a9fa5c"
  | 5 => some "#ff55cf"
  | 8 => some "#808080"
  | _ => none

/-- Stroke color lookup (`getStrokeColor` in constants.ts). -/
def getStrokeColor (pen : NormalizedPen) (colorCode : Nat) : String :=
  if pen = .highlighter then (highlighterColors colorCode).getD "#ffff00"
  else if pen = .eraser ∨ pen = .eraseArea then "#ffffff"
  else (strokeColors colorCode).getD "#000000"

/-- Stroke opacity lookup (`getStrokeOpacity` in constants.ts). -/
def getStrokeOpacity (pen : NormalizedPen) : ℚ :=
  if pen = .highlighter then 0.4 else 1

/-! ## Stroke renderer (src/StrokeRenderer.ts) -/

/-- Average of the `pressure` field over a segment group, as computed by the
`reduce`/`length` expressions in `calculateSegmentWidth`. -/
def avgPressure (segments : List RmSegment) : ℚ :=
  (segments.map RmSegment.pressure).sum / segments.length

/-- Average of the `speed` field over a segment group. -/
def avgSpeed (segments : List RmSegment) : ℚ :=
  (segments.map RmSegment.speed).sum / segments.length

/-- Average of the stored per-segment `width` field over a segment group. -/
def avgSegWidth (segments : List RmSegment) : ℚ :=
  (segments.map RmSegment.width).sum / segments.length

/-- Rendered width of a segment group (`calculateSegmentWidth` in
StrokeRenderer.ts). -/
def calculateSegmentWidth (pen : NormalizedPen) (baseWidth : ℚ)
    (segments : List RmSegment) : ℚ :=
  match pen with
  | .ballpoint =>
      max 0.4 ((0.5 + avgPressure segments / 255) + (avgSegWidth segments / 4)
        - 0.5 * ((avgSpeed segments / 4) / 50))
  | .pencil => max 0.3 (avgSegWidth segments * 0.8 + avgPressure segments * 0.3)
  | .mechPencil => max 0.3 (avgSegWidth segments * 0.8 + avgPressure segments * 0.3)
  | .brush => max 0.5 (avgSegWidth segments + avgPressure segments * 2)
  | .calligraphy => max 0.5 (avgSegWidth segments + avgPressure segments * 2)
  | .marker => max 1 (avgSegWidth segments)
  | _ => max 0.5 (avgSegWidth segments)

/-- Pressure-sensitivity predicate (`isPressureSensitive` in
StrokeRenderer.ts). -/
def isPressureSensitive (pen : NormalizedPen) : Bool :=
  pen = .ballpoint ∨ pen = .pencil ∨ pen = .mechPencil ∨ pen = .brush ∨
    pen = .calligraphy ∨ pen = .marker

/-- An emitted SVG element, with numeric data kept exact (the `toFixed`
decimal formatting of the source is not modelled). -/
inductive SvgElem where
  | circle (cx cy r : ℚ) (fill : String)
  | polyline (points : List (ℚ × ℚ)) (color : String) (width : ℚ)
      (linecap : String) (opacity : ℚ)
  | group (elems : List SvgElem)

/-- Point list of a segment group, as serialized into the `points` SVG
attribute. -/
def segPoints (segments : List RmSegment) : List (ℚ × ℚ) :=
  segments.map fun s => (s.x, s.y)

/-- Constant-width rendering branch (`renderConstantWidthStroke`). -/
def renderConstantWidthStroke (segments : List RmSegment) (color : String)
    (opacity width : ℚ) : SvgElem :=
  .polyline (segPoints segments) color width "round" opacity

/-- Highlighter rendering branch (`renderHighlighterStroke`). -/
def renderHighlighterStroke (segments : List RmSegment) (color : String)
    (width : ℚ) : SvgElem :=
  .polyline (segPoints segments) color width "square" 0.4

/-- The overlapping run decomposition of `renderVariableWidthStroke`: starting
indices 0, 5, 10, … while `i < segments.length - 1`, each run being
`segments.slice i (min (i + 6) segments.length)`.  The loop is modelled with a
fuel argument (the loop index grows by 5 every iteration, so
`segments.length` iterations always suffice). -/
def strokeRunsAux (segments : List RmSegment) : Nat → Nat → List (List RmSegment)
  | 0, _ => []
  | fuel + 1, i =>
      if i < segments.length - 1 then
        (segments.drop i).take (min (i + 6) segments.length - i) ::
          strokeRunsAux segments fuel (i + 5)
      else []

/-- Runs of a pressure-sensitive stroke (5 segments per run, overlapping by
one point). -/
def strokeRuns (segments : List RmSegment) : List (List RmSegment) :=
  strokeRunsAux segments segments.length 0

/-- Variable-width rendering branch (`renderVariableWidthStroke`).  A stroke
with fewer than two segments becomes a filled dot. -/
def renderVariableWidthStroke (segments : List RmSegment) (color : String)
    (opacity : ℚ) (pen : NormalizedPen) (baseWidth : ℚ) : SvgElem :=
  if segments.length < 2 then
    match segments with
    | [] => .circle 0 0 (max 0.5 (baseWidth * 0.5)) color
    | s :: _ => .circle s.x s.y (max 0.5 (baseWidth * 0.5)) color
  else
    .group ((strokeRuns segments).map fun run =>
      .polyline (segPoints run) color (calculateSegmentWidth pen baseWidth run)
        "round" opacity)

/-- Top-level per-stroke SVG dispatch (`renderStroke` in StrokeRenderer.ts).
Returns `none` for empty strokes and for the area eraser. -/
def renderStroke (stroke : RmStroke) : Option SvgElem :=
  if stroke.segments.length = 0 then none
  else
    let pen := getNormalizedPen stroke.pen
    if pen = .eraseArea then none
    else
      let color := getStrokeColor pen stroke.color
      let opacity := getStrokeOpacity pen
      let widthMult := penWidthMultiplier pen
      let baseWidth := stroke.width * widthMult
      if pen = .highlighter then
        some (renderHighlighterStroke stroke.segments color baseWidth)
      else if isPressureSensitive pen then
        some (renderVariableWidthStroke stroke.segments color opacity pen stroke.width)
      else
        some (renderConstantWidthStroke stroke.segments color opacity baseWidth)

/-! ## Page compositor (src/PdfGenerator.ts) -/

/-- Canvas width in device pixels (`RM_WIDTH` in constants.ts). -/
def RM_WIDTH : ℚ := 1404

/-- Canvas height in device pixels (`RM_HEIGHT` in constants.ts). -/
def RM_HEIGHT : ℚ := 1872

/-- Scale factor from device pixels to PDF points (`PDF_SCALE = 72 / RM_DPI`
in constants.ts, with `RM_DPI = 226`). -/
def PDF_SCALE : ℚ := 72 / 226

/-- Output page width in PDF points (`PDF_WIDTH` in constants.ts). -/
def PDF_WIDTH : ℚ := RM_WIDTH * PDF_SCALE

/-- Output page height in PDF points (`PDF_HEIGHT` in constants.ts). -/
def PDF_HEIGHT : ℚ := RM_HEIGHT * PDF_SCALE

/-- The affine 3×3 transform of a document content descriptor
(`DocumentContent.transform` in types.ts); only the six coefficients used by
the compositor are listed first. -/
structure Transform where
  m11 : ℚ
  m12 : ℚ
  m13 : ℚ
  m21 : ℚ
  m22 : ℚ
  m23 : ℚ
  m31 : ℚ
  m32 : ℚ
  m33 : ℚ
deriving Repr, DecidableEq

/-- The identity transform used as the default. -/
def identityTransform : Transform := ⟨1, 0, 0, 0, 1, 0, 0, 0, 1⟩

/-- Apply the affine transform to a point, exactly as `computePageLayout`,
`drawStrokePath` and `drawHighlight` do
(`tx = m11*x + m12*y + m13`, `ty = m21*x + m22*y + m23`). -/
def applyTransform (t : Transform) (p : ℚ × ℚ) : ℚ × ℚ :=
  (t.m11 * p.1 + t.m12 * p.2 + t.m13, t.m21 * p.1 + t.m22 * p.2 + t.m23)

/-- The four corners of a highlight rectangle, in the order enumerated by
`computePageLayout`. -/
def rectCorners (r : RmHighlightRect) : List (ℚ × ℚ) :=
  [(r.x, r.y), (r.x + r.w, r.y), (r.x, r.y + r.h), (r.x + r.w, r.y + r.h)]

/-- Every transformed point that `computePageLayout` feeds into its bounding
box: all transformed stroke segments, then all transformed highlight-rect
corners, per page. -/
def layoutPoints (pages : List RmPage) (t : Transform) : List (ℚ × ℚ) :=
  (pages.map fun page =>
    (page.layers.map fun layer =>
      (layer.strokes.map fun stroke =>
        stroke.segments.map fun s => applyTransform t (s.x, s.y)).flatten).flatten
    ++ (page.highlights.map fun hl =>
        (hl.rects.map fun r => (rectCorners r).map (applyTransform t)).flatten).flatten
    ).flatten

/-- Running minimum over a list (the `if (v < min) min = v` accumulation of
`computePageLayout`, with `Infinity` as the initial value modelled by
`none`). -/
def minQ (xs : List ℚ) : Option ℚ :=
  match xs with
  | [] => none
  | x :: rest => some (rest.foldl min x)

/-- Running maximum over a list (initial value `-Infinity` modelled by
`none`). -/
def maxQ (xs : List ℚ) : Option ℚ :=
  match xs with
  | [] => none
  | x :: rest => some (rest.foldl max x)

/-- Bounding box of the transformed content, or `none` when there is no
content (the `!isFinite(minX)` case of the source). -/
def layoutBounds (pages : List RmPage) (t : Transform) :
    Option (ℚ × ℚ × ℚ × ℚ) :=
  let pts := layoutPoints pages t
  match minQ (pts.map Prod.fst), maxQ (pts.map Prod.fst),
      minQ (pts.map Prod.snd), maxQ (pts.map Prod.snd) with
  | some mnx, some mxx, some mny, some mxy => some (mnx, mxx, mny, mxy)
  | _, _, _, _ => none

/-- Computed page layout (`PageLayout` in PdfGenerator.ts). -/
structure PageLayout where
  scale : ℚ
  offsetX : ℚ
  offsetY : ℚ
  pageWidth : ℚ
  pageHeight : ℚ
deriving Repr, DecidableEq

/-- The fixed native layout returned when the content fits the standard
canvas (or when there is no content at all). -/
def nativeLayout : PageLayout :=
  ⟨PDF_SCALE, 0, 0, PDF_WIDTH, PDF_HEIGHT⟩

/-- The padding margin applied before fitting oversized content
(`PADDING` in `computePageLayout`). -/
def LAYOUT_PADDING : ℚ := 20

/-- Page layout computation (`computePageLayout` in PdfGenerator.ts). -/
def computePageLayout (pages : List RmPage) (t : Transform) : PageLayout :=
  match layoutBounds pages t with
  | none => nativeLayout
  | some (mnx, mxx, mny, mxy) =>
      if -1 ≤ mnx ∧ mxx ≤ RM_WIDTH + 1 ∧ -1 ≤ mny ∧ mxy ≤ RM_HEIGHT + 1 then
        nativeLayout
      else
        let mnx := mnx - LAYOUT_PADDING
        let mny := mny - LAYOUT_PADDING
        let mxx := mxx + LAYOUT_PADDING
        let mxy := mxy + LAYOUT_PADDING
        let contentW := mxx - mnx
        let contentH := mxy - mny
        let fitScale := min (PDF_WIDTH / contentW) (PDF_HEIGHT / contentH)
        ⟨fitScale, -mnx, -mny, PDF_WIDTH, PDF_HEIGHT⟩

/-- A drawing operation emitted onto a PDF page.  Colors are carried as hex
strings; the source converts them through `hexToRgb` just before calling
`pdf-lib`, and the eraser branch passes `rgb(1,1,1)`, which equals
`hexToRgb("#ffffff")`. -/
inductive PdfOp where
  | path (points : List (ℚ × ℚ)) (borderWidth : ℚ) (colorHex : String)
      (opacity : ℚ)
  | rect (x y w h : ℚ) (colorCode : Nat) (opacity : ℚ)
deriving Repr, DecidableEq

/-- Path emission helper (`drawStrokePath` in PdfGenerator.ts): transform,
add the layout offset and multiply by the layout scale.  The empty-path guard
`if (!svgPath) return` can only fire on an empty segment list. -/
def drawStrokePath (stroke : RmStroke) (colorHex : String) (opacity : ℚ)
    (t : Transform) (layout : PageLayout) : List PdfOp :=
  let pen := getNormalizedPen stroke.pen
  let widthMult := penWidthMultiplier pen
  let lineWidth := stroke.width * widthMult * layout.scale
  let pts := stroke.segments.map fun s =>
    let q := applyTransform t (s.x, s.y)
    ((q.1 + layout.offsetX) * layout.scale, (q.2 + layout.offsetY) * layout.scale)
  if pts.length = 0 then []
  else [.path pts (max 0.1 lineWidth) colorHex opacity]

/-- Per-stroke PDF dispatch (`drawStroke` in PdfGenerator.ts).  Strokes with
fewer than two segments and area-eraser strokes emit nothing; erasers paint
an opaque white path. -/
def drawStroke (stroke : RmStroke) (t : Transform) (layout : PageLayout) :
    List PdfOp :=
  if stroke.segments.length < 2 then []
  else
    let pen := getNormalizedPen stroke.pen
    if pen = .eraseArea then []
    else
      let colorHex := getStrokeColor pen stroke.color
      let opacity := getStrokeOpacity pen
      if pen = .eraser then drawStrokePath stroke "#ffffff" 1 t layout
      else drawStrokePath stroke colorHex opacity t layout

/-! ## Helper lemmas -/

lemma foldl_min_le (l : List ℚ) (x : ℚ) : l.foldl min x ≤ x := by
  induction l generalizing x with
  | nil => exact le_refl x
  | cons y l ih => exact le_trans (ih (min x y)) (min_le_left x y)

lemma le_foldl_max (l : List ℚ) (x : ℚ) : x ≤ l.foldl max x := by
  induction l generalizing x with
  | nil => exact le_refl x
  | cons y l ih => exact le_trans (le_max_left x y) (ih (max x y))

lemma minQ_le_maxQ {xs : List ℚ} {a b : ℚ} (ha : minQ xs = some a)
    (hb : maxQ xs = some b) : a ≤ b := by
  cases xs with
  | nil => simp [minQ] at ha
  | cons x rest =>
      simp only [minQ, maxQ, Option.some.injEq] at ha hb
      exact ha ▸ hb ▸ le_trans (foldl_min_le rest x) (le_foldl_max rest x)

/-! ## Claim C7 -/

/-- C7: for every run of segments of a pressure-sensitive stroke, the rendered
run width is computed from the run's average pressure, average speed and
average stored per-segment width by the tool-specific formula — ballpoint
`max(0.4, (0.5 + pressure/255) + width/4 − 0.5·(speed/4)/50)`, pencil and
mechanical-pencil `max(0.3, width·0.8 + pressure·0.3)`, brush and calligraphy
`max(0.5, width + pressure·2)`, marker `max(1.0, width)`; with pressure 255,
speed 0 and width 0 a ballpoint run has width 1.5, and with pressure 0 and
width 2 a marker run has width 2.0. -/
theorem claim_C7 (baseWidth : ℚ) (segments : List RmSegment) :
    (calculateSegmentWidth .ballpoint baseWidth segments
      = max 0.4 ((0.5 + avgPressure segments / 255) + avgSegWidth segments / 4
          - 0.5 * ((avgSpeed segments / 4) / 50)))
  ∧ (calculateSegmentWidth .pencil baseWidth segments
      = max 0.3 (avgSegWidth segments * 0.8 + avgPressure segments * 0.3))
  ∧ (calculateSegmentWidth .mechPencil baseWidth segments
      = max 0.3 (avgSegWidth segments * 0.8 + avgPressure segments * 0.3))
  ∧ (calculateSegmentWidth .brush baseWidth segments
      = max 0.5 (avgSegWidth segments + avgPressure segments * 2))
  ∧ (calculateSegmentWidth .calligraphy baseWidth segments
      = max 0.5 (avgSegWidth segments + avgPressure segments * 2))
  ∧ (calculateSegmentWidth .marker baseWidth segments
      = max 1.0 (avgSegWidth segments))
  ∧ calculateSegmentWidth .ballpoint baseWidth [⟨0, 0, 0, 0, 0, 255⟩] = 1.5
  ∧ calculateSegmentWidth .marker baseWidth [⟨0, 0, 0, 0, 2, 0⟩] = 2.0 := by
  refine ⟨rfl, rfl, rfl, rfl, rfl, ?_, ?_, ?_⟩
  · norm_num [calculateSegmentWidth]
  · norm_num [calculateSegmentWidth, avgPressure, avgSpeed, avgSegWidth]
  · norm_num [calculateSegmentWidth, avgPressure, avgSpeed, avgSegWidth]

/-! ## Claim C8 -/

/-- C8 as amended: in the SVG stroke renderer, every single-segment stroke of
a pressure-sensitive tool renders as a filled dot of radius
`max(0.5, baseWidth/2)` instead of a path; the PDF generator, by contrast,
emits nothing for a stroke with fewer than two segments. -/
theorem claim_C8 :
    (∀ (stroke : RmStroke) (s : RmSegment),
       stroke.segments = [s] →
       isPressureSensitive (getNormalizedPen stroke.pen) = true →
       renderStroke stroke
         = some (.circle s.x s.y (max 0.5 (stroke.width * 0.5))
             (getStrokeColor (getNormalizedPen stroke.pen) stroke.color)))
  ∧ (∀ (stroke : RmStroke) (t : Transform) (layout : PageLayout),
       stroke.segments.length < 2 → drawStroke stroke t layout = []) := by
  constructor
  · intro stroke s hseg hps
    cases hpen : getNormalizedPen stroke.pen <;>
      simp_all [renderStroke, isPressureSensitive, renderVariableWidthStroke,
        hseg, hpen]
  · intro stroke t layout hlen
    simp [drawStroke, hlen]

/-- C8 counterexample to the claim as stated: a concrete single-segment
ballpoint stroke is silently dropped by the PDF generator's `drawStroke`
(which the claim cites as rendered output), not emitted as a dot. -/
theorem claim_C8_counterexample :
    getNormalizedPen 2 = .ballpoint
  ∧ isPressureSensitive .ballpoint = true
  ∧ drawStroke ⟨2, 0, 1, [⟨0, 0, 0, 0, 0, 1⟩]⟩ identityTransform nativeLayout
      = [] := ⟨rfl, rfl, rfl⟩

/-- C8 witness: the SVG renderer emits the dot for a concrete single-segment
ballpoint stroke, and the PDF generator emits nothing for it. -/
theorem claim_C8_witness :
    renderStroke ⟨2, 0, 3, [⟨1, 2, 0, 0, 0, 0⟩]⟩
      = some (.circle 1 2 (max 0.5 ((3 : ℚ) * 0.5))
          (getStrokeColor (getNormalizedPen 2) 0))
  ∧ drawStroke ⟨2, 0, 3, [⟨1, 2, 0, 0, 0, 0⟩]⟩ identityTransform nativeLayout
      = [] :=
  ⟨claim_C8.1 ⟨2, 0, 3, [⟨1, 2, 0, 0, 0, 0⟩]⟩ ⟨1, 2, 0, 0, 0, 0⟩ rfl rfl,
   claim_C8.2 ⟨2, 0, 3, [⟨1, 2, 0, 0, 0, 0⟩]⟩ identityTransform nativeLayout
     (by norm_num)⟩

/-! ## Claim C9 -/

/-- Extraction lemma for `layoutBounds`. -/
lemma layoutBounds_some {pages : List RmPage} {t : Transform}
    {mnx mxx mny mxy : ℚ}
    (h : layoutBounds pages t = some (mnx, mxx, mny, mxy)) :
    minQ ((layoutPoints pages t).map Prod.fst) = some mnx
  ∧ maxQ ((layoutPoints pages t).map Prod.fst) = some mxx
  ∧ minQ ((layoutPoints pages t).map Prod.snd) = some mny
  ∧ maxQ ((layoutPoints pages t).map Prod.snd) = some mxy := by
  unfold layoutBounds at h
  cases h1 : minQ ((layoutPoints pages t).map Prod.fst) <;>
    cases h2 : maxQ ((layoutPoints pages t).map Prod.fst) <;>
    cases h3 : minQ ((layoutPoints pages t).map Prod.snd) <;>
    cases h4 : maxQ ((layoutPoints pages t).map Prod.snd) <;>
    simp_all

/-- C9: for every set of decoded pages and document transform, the layout is
the fixed native scale, zero offset and fixed page size whenever the bounding
box of all transformed stroke segments and highlight-rect corners lies within
the native canvas with a 1-unit tolerance; otherwise the box is padded by the
fixed margin and the layout carries the largest scale fitting both padded
axes into the fixed page size, with an offset shifting the padded box's
minimum corner to the origin. -/
theorem claim_C9 (pages : List RmPage) (t : Transform) (mnx mxx mny mxy : ℚ)
    (hb : layoutBounds pages t = some (mnx, mxx, mny, mxy)) :
    ((-1 ≤ mnx ∧ mxx ≤ RM_WIDTH + 1 ∧ -1 ≤ mny ∧ mxy ≤ RM_HEIGHT + 1) →
       computePageLayout pages t = nativeLayout)
  ∧ (¬(-1 ≤ mnx ∧ mxx ≤ RM_WIDTH + 1 ∧ -1 ≤ mny ∧ mxy ≤ RM_HEIGHT + 1) →
       computePageLayout pages t
         = ⟨min (PDF_WIDTH / (mxx - mnx + 2 * LAYOUT_PADDING))
               (PDF_HEIGHT / (mxy - mny + 2 * LAYOUT_PADDING)),
             -(mnx - LAYOUT_PADDING), -(mny - LAYOUT_PADDING),
             PDF_WIDTH, PDF_HEIGHT⟩
       ∧ (mnx - LAYOUT_PADDING) + (computePageLayout pages t).offsetX = 0
       ∧ (mny - LAYOUT_PADDING) + (computePageLayout pages t).offsetY = 0
       ∧ (computePageLayout pages t).scale * (mxx - mnx + 2 * LAYOUT_PADDING)
           ≤ PDF_WIDTH
       ∧ (computePageLayout pages t).scale * (mxy - mny + 2 * LAYOUT_PADDING)
           ≤ PDF_HEIGHT
       ∧ ((computePageLayout pages t).scale * (mxx - mnx + 2 * LAYOUT_PADDING)
             = PDF_WIDTH
          ∨ (computePageLayout pages t).scale * (mxy - mny + 2 * LAYOUT_PADDING)
             = PDF_HEIGHT)) := by
  obtain ⟨h1, h2, h3, h4⟩ := layoutBounds_some hb
  have hx : mnx ≤ mxx := minQ_le_maxQ h1 h2
  have hy : mny ≤ mxy := minQ_le_maxQ h3 h4
  have hw : (0 : ℚ) < mxx - mnx + 2 * LAYOUT_PADDING := by
    unfold LAYOUT_PADDING; linarith
  have hh : (0 : ℚ) < mxy - mny + 2 * LAYOUT_PADDING := by
    unfold LAYOUT_PADDING; linarith
  constructor
  · intro hfits
    simp [computePageLayout, hb, hfits]
  · intro hfits
    have heq : computePageLayout pages t
        = ⟨min (PDF_WIDTH / (mxx - mnx + 2 * LAYOUT_PADDING))
              (PDF_HEIGHT / (mxy - mny + 2 * LAYOUT_PADDING)),
            -(mnx - LAYOUT_PADDING), -(mny - LAYOUT_PADDING),
            PDF_WIDTH, PDF_HEIGHT⟩ := by
      simp only [computePageLayout, hb, if_neg hfits]
      congr 1 <;> ring_nf
    refine ⟨heq, ?_, ?_, ?_, ?_, ?_⟩ <;> rw [heq]
    · simp
    · simp
    · exact (le_div_iff₀ hw).mp (min_le_left _ _)
    · exact (le_div_iff₀ hh).mp (min_le_right _ _)
    · rcases min_choice (PDF_WIDTH / (mxx - mnx + 2 * LAYOUT_PADDING))
        (PDF_HEIGHT / (mxy - mny + 2 * LAYOUT_PADDING)) with hmin | hmin
      · exact Or.inl (by rw [hmin]; field_simp)
      · exact Or.inr (by rw [hmin]; field_simp)

/-- C9 witness: a concrete page whose content fits the native canvas gets the
native layout. -/
theorem claim_C9_witness :
    layoutBounds [⟨[⟨[⟨2, 0, 1, [⟨0, 0, 0, 0, 0, 0⟩, ⟨100, 200, 0, 0, 0, 0⟩]⟩]⟩],
        [], 3⟩] identityTransform = some (0, 100, 0, 200)
  ∧ computePageLayout
      [⟨[⟨[⟨2, 0, 1, [⟨0, 0, 0, 0, 0, 0⟩, ⟨100, 200, 0, 0, 0, 0⟩]⟩]⟩], [], 3⟩]
      identityTransform = nativeLayout := by
  have hb : layoutBounds
      [⟨[⟨[⟨2, 0, 1, [⟨0, 0, 0, 0, 0, 0⟩, ⟨100, 200, 0, 0, 0, 0⟩]⟩]⟩], [], 3⟩]
      identityTransform = some (0, 100, 0, 200) := by
    norm_num [layoutBounds, layoutPoints, applyTransform, identityTransform,
      minQ, maxQ]
  exact ⟨hb, (claim_C9 _ _ 0 100 0 200 hb).1
    (by norm_num [RM_WIDTH, RM_HEIGHT])⟩

/-! ## Wire protocol client (src/RemarkableClient.ts) -/

/-- Value of a maximal leading digit run (helper for `parseIntJS`). -/
def digitsValue : List Char → Nat → Nat
  | [], acc => acc
  | c :: rest, acc =>
      if c.isDigit then digitsValue rest (acc * 10 + (c.toNat - 48)) else acc

/-- Leading digit run of a character list, or `none` when it is empty. -/
def leadDigits (cs : List Char) : Option Nat :=
  match cs with
  | [] => none
  | c :: _ => if c.isDigit then some (digitsValue cs 0) else none

/-- Model of JavaScript `parseInt(s, 10)`: skip leading whitespace, read an
optional sign and a maximal digit prefix; `none` models `NaN`. -/
def parseIntJS (s : String) : Option Int :=
  let cs := s.data.dropWhile Char.isWhitespace
  match cs with
  | '-' :: rest => (leadDigits rest).map fun n => -(n : Int)
  | '+' :: rest => (leadDigits rest).map fun n => (n : Int)
  | _ => (leadDigits cs).map fun n => (n : Int)

/-- A parsed entries-file record (`RawEntry` in types.ts).  For malformed
lines with fewer than five `:`-separated fields the JS destructuring yields
`undefined`: string fields model that as `""` and the `parseInt` results as
`none`. -/
structure RawEntry where
  hash : String
  type : Nat
  id : String
  subfiles : Option Int
  size : Option Int
deriving Repr, DecidableEq

/-- A parsed entries file (`EntriesFile` in types.ts); `idInfo`/`totalSize`
are only populated for schema 4, and `totalSize = none` also covers a `NaN`
result of `parseInt`. -/
structure EntriesFile where
  schemaVersion : Nat
  entries : List RawEntry
  idInfo : Option String
  totalSize : Option Int
deriving Repr, DecidableEq

/-- Field-level body of `parseEntryLine` (after `line.split(":")`). -/
def parseEntryFields (ps : List String) : RawEntry :=
  { hash := ps.getD 0 ""
    type := if ps.get? 1 = some "80000000" then 80000000 else 0
    id := ps.getD 2 ""
    subfiles := (ps.get? 3).bind parseIntJS
    size := (ps.get? 4).bind parseIntJS }

/-- Entry-record parser (`parseEntryLine` in RemarkableClient.ts). -/
def parseEntryLine (line : String) : RawEntry :=
  parseEntryFields (line.splitOn ":")

/-- Line-level body of `parseEntriesText` (after stripping the last character
and splitting on line breaks).  Unsupported schema versions produce an error
(`throw new Error` in the source); a schema-4 text without an info line hits
the JS `TypeError` on `undefined.split`, also modelled as an error. -/
def parseEntriesLines (lines : List String) : Except String EntriesFile :=
  let versionStr := lines.getD 0 ""
  if parseIntJS versionStr = some 3 then
    .ok ⟨3, (lines.drop 1).map parseEntryLine, none, none⟩
  else if parseIntJS versionStr = some 4 then
    match lines.get? 1 with
    | none => .error "TypeError: cannot split undefined"
    | some infoLine =>
        let fields := infoLine.splitOn ":"
        .ok ⟨4, (lines.drop 2).map parseEntryLine, some (fields.getD 1 ""),
          (fields.get? 3).bind parseIntJS⟩
  else .error ("Unsupported schema version: " ++ versionStr)

/-- Entries-list text decoder (`parseEntriesText` in RemarkableClient.ts):
`raw.slice(0, -1)` drops the final character (the trailing newline), then the
text is split on `"\n"`. -/
def parseEntriesText (raw : String) : Except String EntriesFile :=
  parseEntriesLines ((raw.dropRight 1).splitOn "\n")

/-- An HTTP response, reduced to the payload the client reads. -/
structure Resp where
  text : String
deriving Repr, DecidableEq

/-- A failure thrown by the host `requestUrl` call; `status = none` models a
transport-level failure with no HTTP status. -/
structure JsFailure where
  status : Option Nat
deriving Repr, DecidableEq

/-- The classified error type (`RmApiError` in RemarkableClient.ts). -/
structure RmApiError where
  message : String
  status : Nat
deriving Repr, DecidableEq

/-- Error classification performed by `rmRequest`: the thrown failure becomes
an `RmApiError` carrying the numeric status, or the sentinel status `0` and
message `network_error` for a transport failure. -/
def classifyFailure (e : JsFailure) : RmApiError :=
  ⟨match e.status with
    | some n => toString n
    | none => "network_error",
   e.status.getD 0⟩

/-- Request wrapper (`rmRequest` in RemarkableClient.ts), over an abstract
outcome of the host `requestUrl` call. -/
def rmRequest (raw : Except JsFailure Resp) : Except RmApiError Resp :=
  match raw with
  | .ok r => .ok r
  | .error e => .error (classifyFailure e)

/-- Oracle for the network: `refreshRaw n` is the outcome of the `n`-th token
refresh (whose response text becomes the session token), and
`respondRaw tok i` is the outcome of the `i`-th authenticated GET of this
`authedRequest` invocation when it attaches token `tok`. -/
structure ClientEnv where
  refreshRaw : Nat → Except JsFailure Resp
  respondRaw : String → Nat → Except JsFailure Resp

/-- Token refresh (`refreshToken` in RemarkableClient.ts): the new session
token is the raw response text. -/
def refreshTokenM (env : ClientEnv) (n : Nat) : Except RmApiError String :=
  (rmRequest (env.refreshRaw n)).map Resp.text

/-- Observable outcome of one `authedRequest` call: the result, the tokens
attached to the HTTP attempts in order, and how many refreshes ran. -/
structure AuthedResult where
  result : Except RmApiError Resp
  tokensUsed : List String
  refreshes : Nat
deriving Repr

/-- Core of `authedRequest` once a session token is in hand: try the GET; on
a 401/403 classified failure refresh once and retry exactly once, and let any
second failure propagate; let every other failure propagate immediately. -/
def authedCore (env : ClientEnv) (t : String) (refreshes : Nat) : AuthedResult :=
  match rmRequest (env.respondRaw t 0) with
  | .ok r => ⟨.ok r, [t], refreshes⟩
  | .error e =>
      if e.status = 401 ∨ e.status = 403 then
        match refreshTokenM env refreshes with
        | .error e2 => ⟨.error e2, [t], refreshes + 1⟩
        | .ok t2 => ⟨rmRequest (env.respondRaw t2 1), [t, t2], refreshes + 1⟩
      else ⟨.error e, [t], refreshes⟩

/-- Authenticated request (`authedRequest` in RemarkableClient.ts), starting
from the stored session token (`none` when no token has been obtained yet,
which triggers an up-front refresh). -/
def authedRequest (env : ClientEnv) (userToken : Option String) : AuthedResult :=
  match userToken with
  | some t => authedCore env t 0
  | none =>
      match refreshTokenM env 0 with
      | .error e => ⟨.error e, [], 1⟩
      | .ok t => authedCore env t 1

/-! ## Claim C2 -/

/-- C2 as amended: `parseEntriesText` drops the trailing newline, splits on
line breaks and reads line 0 as the schema version; schema 3 parses lines
1..N as entry records, schema 4 skips one info line and parses lines 2..N;
each record `hash:type:id:subfileCount:size` maps the type string `80000000`
to the decimal integer 80000000 (not 0x80000000) and any other type string to
0; any schema version other than 3 or 4 produces a fatal parse error. -/
theorem claim_C2 (raw : String) (ls : List String)
    (info v h i c s t : String) (ht : t ≠ "80000000") :
    parseEntriesText raw = parseEntriesLines ((raw.dropRight 1).splitOn "\n")
  ∧ parseEntriesLines ("3" :: ls) = .ok ⟨3, ls.map parseEntryLine, none, none⟩
  ∧ parseEntriesLines ("4" :: info :: ls)
      = .ok ⟨4, ls.map parseEntryLine, some ((info.splitOn ":").getD 1 ""),
          ((info.splitOn ":").get? 3).bind parseIntJS⟩
  ∧ (parseEntryFields [h, "80000000", i, c, s]).type = 80000000
  ∧ (parseEntryFields [h, t, i, c, s]).type = 0
  ∧ (parseIntJS v ≠ some 3 → parseIntJS v ≠ some 4 →
       parseEntriesLines (v :: ls)
         = .error ("Unsupported schema version: " ++ v)) := by
  refine ⟨rfl, rfl, rfl, rfl, ?_, ?_⟩
  · simp [parseEntryFields, ht]
  · intro h3 h4
    simp [parseEntriesLines, h3, h4]

/-- C2 counterexample to the claim as stated: the code maps the type string
`80000000` to the decimal integer 80000000, which is not 0x80000000
(2147483648). -/
theorem claim_C2_counterexample :
    (parseEntryFields ["h", "80000000", "i", "0", "0"]).type = 80000000
  ∧ (parseEntryFields ["h", "80000000", "i", "0", "0"]).type ≠ 2147483648 :=
  ⟨rfl, by decide⟩

/-- C2 witness: the amended claim at concrete inputs. -/
theorem claim_C2_witness :
    ("x" : String) ≠ "80000000"
  ∧ parseEntriesLines ["3"] = .ok ⟨3, [], none, none⟩
  ∧ (parseEntryFields ["h", "x", "i", "0", "0"]).type = 0
  ∧ parseEntriesLines ["5"] = .error "Unsupported schema version: 5" := by
  have hc := claim_C2 "" [] "" "5" "h" "i" "0" "0" "x" (by decide)
  exact ⟨by decide, hc.2.1, hc.2.2.2.2.1,
    by simpa using hc.2.2.2.2.2 (by decide) (by decide)⟩

/-! ## Claim C6 -/

/-- C6: every authenticated call attaches the current session token; a
response with HTTP status 401 or 403 triggers exactly one token refresh
followed by exactly one retry of that single call, whose own failure
propagates (a second auth failure is fatal); every non-auth HTTP failure
propagates immediately as a classified error carrying the numeric status (or
the sentinel status 0 for a transport-level failure) and is never retried. -/
theorem claim_C6 (env : ClientEnv) (t0 : String) (f : JsFailure) (st : Nat)
    (h1 : env.respondRaw t0 0 = .error f) :
    ((f.status = some st) → (st = 401 ∨ st = 403) → ∀ tr : Resp,
       env.refreshRaw 0 = .ok tr →
       authedRequest env (some t0)
         = ⟨rmRequest (env.respondRaw tr.text 1), [t0, tr.text], 1⟩)
  ∧ ((f.status = some st) → (st = 401 ∨ st = 403) → ∀ tr f2,
       env.refreshRaw 0 = .ok tr → env.respondRaw tr.text 1 = .error f2 →
       (authedRequest env (some t0)).result = .error (classifyFailure f2))
  ∧ ((f.status = some st) → st ≠ 401 → st ≠ 403 →
       authedRequest env (some t0) = ⟨.error ⟨toString st, st⟩, [t0], 0⟩)
  ∧ ((f.status = none) →
       authedRequest env (some t0) = ⟨.error ⟨"network_error", 0⟩, [t0], 0⟩) := by
  refine ⟨?_, ?_, ?_, ?_⟩
  · intro hs hauth tr hr
    simp only [authedRequest, authedCore, rmRequest, h1, refreshTokenM, hr,
      classifyFailure, hs, Option.getD, Except.map]
    rw [if_pos hauth]
  · intro hs hauth tr f2 hr h2
    simp only [authedRequest, authedCore, rmRequest, h1, refreshTokenM, hr,
      classifyFailure, hs, Option.getD, Except.map, h2]
    rw [if_pos hauth]
  · intro hs hn1 hn3
    simp only [authedRequest, authedCore, rmRequest, h1, refreshTokenM,
      classifyFailure, hs, Option.getD, Except.map]
    rw [if_neg (by simp [hn1, hn3])]
  · intro hs
    simp [authedRequest, authedCore, rmRequest, h1, classifyFailure, hs]

/-- C6 witness: a concrete environment whose first response is a 401, whose
refresh yields a new token, and whose retry succeeds. -/
theorem claim_C6_witness :
    authedRequest
      ⟨fun _ => .ok ⟨"tok2"⟩,
       fun _ i => if i = 0 then .error ⟨some 401⟩ else .ok ⟨"payload"⟩⟩
      (some "tok1")
      = ⟨.ok ⟨"payload"⟩, ["tok1", "tok2"], 1⟩
  ∧ authedRequest
      ⟨fun _ => .ok ⟨"tok2"⟩, fun _ _ => .error ⟨some 500⟩⟩ (some "tok1")
      = ⟨.error ⟨"500", 500⟩, ["tok1"], 0⟩ := by
  constructor
  · have hc := (claim_C6
      ⟨fun _ => .ok ⟨"tok2"⟩,
       fun _ i => if i = 0 then .error ⟨some 401⟩ else .ok ⟨"payload"⟩⟩
      "tok1" ⟨some 401⟩ 401 rfl).1 rfl (Or.inl rfl) ⟨"tok2"⟩ rfl
    simpa [rmRequest] using hc
  · have hc := (claim_C6
      ⟨fun _ => .ok ⟨"tok2"⟩, fun _ _ => .error ⟨some 500⟩⟩
      "tok1" ⟨some 500⟩ 500 rfl).2.2.1 rfl (by decide) (by decide)
    simpa using hc

/-! ## Sync engine (src/SyncEngine.ts) -/

/-- Characters replaced with `_` by `sanitizeFilename`. -/
def badFilenameChar (c : Char) : Bool :=
  c = '\\' ∨ c = '/' ∨ c = ':' ∨ c = '*' ∨ c = '?' ∨ c = '"' ∨ c = '<' ∨
    c = '>' ∨ c = '|'

/-- ASCII whitespace, modelling the characters of the JS `\s` class that can
occur in these names. -/
def wsChar (c : Char) : Bool :=
  c = ' ' ∨ c = '\t' ∨ c = '\n' ∨ c = '\r'

/-- Collapse every maximal whitespace run into one space (the
`replace(/\s+/g, " ")` step), tracking whether the previous character was
whitespace. -/
def collapseWs : Bool → List Char → List Char
  | _, [] => []
  | prevWs, c :: rest =>
      if wsChar c then
        if prevWs then collapseWs true rest
        else ' ' :: collapseWs true rest
      else c :: collapseWs false rest

/-- Trim leading and trailing whitespace (the JS `trim()` step). -/
def trimWs (cs : List Char) : List Char :=
  ((cs.dropWhile wsChar).reverse.dropWhile wsChar).reverse

/-- Filename sanitizer (`sanitizeFilename` in SyncEngine.ts): replace
reserved characters with `_`, collapse whitespace runs to single spaces,
trim. -/
def sanitizeFilename (name : String) : String :=
  ⟨trimWs (collapseWs false
    (name.data.map fun c => if badFilenameChar c then '_' else c))⟩

/-- A sub-file entry of an item, reduced to the fields `SyncEngine` reads. -/
structure FileEntry where
  id : String
  hash : String
deriving Repr, DecidableEq

/-- A root entries-list entry, reduced to the fields `sync` reads. -/
structure RootEntry where
  id : String
  hash : String
deriving Repr, DecidableEq

/-- Parsed `.metadata` JSON of an item, reduced to the fields the engine
reads (`ItemMetadata` in types.ts). -/
structure ItemMeta where
  deleted : Bool
  visibleName : String
  lastModified : String
  parent : String
  pinned : Bool
  mtype : String
deriving Repr, DecidableEq

/-- A listed item (`RemarkableItem` in types.ts). -/
structure RemarkableItem where
  id : String
  hash : String
  visibleName : String
  lastModified : String
  parent : String
  pinned : Bool
  mtype : String
  fileEntries : List FileEntry
deriving Repr, DecidableEq

/-- A sync-state cache record (`SyncRecord` in types.ts, as used by
SyncEngine.ts).  The fields `visibleName`, `parent` and `mtype` are written
by the listing loop but dropped again by `syncDocument`; the empty string
models the JS `undefined` (both are falsy, and every use is a truthiness
test, `??` or comparison with a non-empty literal). -/
structure SyncRecord where
  hash : String
  lastModified : String
  vaultPath : String
  visibleName : String
  parent : String
  mtype : String
deriving Repr, DecidableEq

/-- The sync-state cache: an id-keyed record map (a JS object), modelled as
an association list. -/
abbrev SyncCache := List (String × SyncRecord)

/-- Cache lookup (`this.settings.syncState[id]`). -/
def cacheGet (cache : SyncCache) (id : String) : Option SyncRecord :=
  (cache.find? fun p => p.1 == id).map Prod.snd

/-- Cache assignment (`this.settings.syncState[id] = r`): overwrite the
existing record or append a new binding. -/
def cacheSet (cache : SyncCache) (id : String) (r : SyncRecord) : SyncCache :=
  if (cache.find? fun p => p.1 == id).isSome then
    cache.map fun p => if p.1 == id then (id, r) else p
  else cache ++ [(id, r)]

/-- Deletion reconciliation (`sync`, clean-up loop): every cached id that is
absent from the current root entries-list is deleted; JS `delete` on the
object keys is modelled as a filter over the association list. -/
def purgeCache (cache : SyncCache) (cloudIds : List String) : SyncCache :=
  cache.filter fun p => cloudIds.contains p.1

/-- Iterative parent-chain walk of `getVaultPath`, with an explicit fuel
argument standing for the number of loop iterations (the source loop has no
iteration bound and no visited set; `none` means the fuel ran out, i.e. the
source loop is still running after that many iterations). -/
def getVaultPathAux (items : List RemarkableItem) :
    Nat → String → List String → Option (List String)
  | 0, _, _ => none
  | fuel + 1, parent, parts =>
      if parent = "" ∨ parent = "trash" then some parts
      else
        match items.find? fun i => i.id == parent with
        | none => some parts
        | some it =>
            getVaultPathAux items fuel it.parent
              (sanitizeFilename it.visibleName :: parts)

/-- The walk of `getVaultPath` terminates on this input. -/
def walkTerminates (items : List RemarkableItem) (startParent : String) : Prop :=
  ∃ fuel, (getVaultPathAux items fuel startParent []).isSome

/-- Assemble the output folder path (`getVaultPath` in SyncEngine.ts) from
the walk result; `syncFolder = ""` falls back to `"remarkable"` (the JS `||`
on a falsy string). -/
def assembleVaultPath (syncFolder : String) (parts : List String) : String :=
  let base := if syncFolder = "" then "remarkable" else syncFolder
  if parts.length > 0 then base ++ "/" ++ String.intercalate "/" parts
  else base

/-- Total model of `getVaultPath`, running the walk with
`items.length + 1` iterations of fuel.  The fuel can only run out on a cyclic
parent chain, where the source function does not terminate at all
(claim C3); in that case the base folder is returned so that the surrounding
sync model stays total. -/
def getVaultPath (syncFolder : String) (doc : RemarkableItem)
    (items : List RemarkableItem) : String :=
  assembleVaultPath syncFolder
    ((getVaultPathAux items (items.length + 1) doc.parent []).getD [])

/-- JS `endsWith`, modelled over the character lists. -/
def strEndsWith (s suffix : String) : Bool :=
  suffix.data.isSuffixOf s.data

/-- Network oracle for the sync model: `entriesOf h` is the entries list
returned by `getEntries(h)` (`none` models a thrown fetch error), and
`metaOf h` is the parsed metadata returned by fetching and `JSON.parse`-ing
the blob at `h` (`none` models a thrown fetch or parse error). -/
structure SyncNet where
  entriesOf : String → Option (List FileEntry)
  metaOf : String → Option ItemMeta

/-- Item fetch (`fetchItem` in SyncEngine.ts): fetch the item's entries list,
locate the `.metadata` sub-entry, fetch and parse it; skip (ok none) items
without metadata, deleted items, and items of unknown type.  The returned
`Nat` counts the blob fetches performed for this item. -/
def fetchItem (net : SyncNet) (e : RootEntry) :
    Except Unit (Option RemarkableItem) × Nat :=
  match net.entriesOf e.hash with
  | none => (.error (), 1)
  | some fileEntries =>
      match fileEntries.find? fun fe => strEndsWith fe.id ".metadata" with
      | none => (.ok none, 1)
      | some metaEntry =>
          match net.metaOf metaEntry.hash with
          | none => (.error (), 2)
          | some md =>
              if md.deleted then (.ok none, 2)
              else if md.mtype ≠ "DocumentType" ∧ md.mtype ≠ "CollectionType" then
                (.ok none, 2)
              else
                (.ok (some ⟨e.id, e.hash, md.visibleName, md.lastModified,
                  md.parent, md.pinned, md.mtype, fileEntries⟩), 2)

/-- Accumulator state of the listing loop of `sync` (lines 55–96). -/
structure ListingState where
  cache : SyncCache
  allItems : List RemarkableItem
  changedDocs : List RemarkableItem
  fetchCounts : List (String × Nat)
deriving Repr

/-- One iteration of the listing loop of `sync`: an entry whose cached
record matches the current hash and still carries a (truthy) `visibleName`
and `type` is reconstructed from the cache with no fetch at all; otherwise
the item is fully fetched, the cache record is rewritten (preserving the old
`vaultPath`), and documents are queued as changed. -/
def listEntryStep (net : SyncNet) (st : ListingState) (e : RootEntry) :
    ListingState :=
  match cacheGet st.cache e.id with
  | some c =>
      if c.hash == e.hash ∧ c.visibleName ≠ "" ∧ c.mtype ≠ "" then
        { st with
          allItems := st.allItems ++
            [⟨e.id, e.hash, c.visibleName, c.lastModified, c.parent, false,
              c.mtype, []⟩],
          fetchCounts := st.fetchCounts ++ [(e.id, 0)] }
      else listEntryFetch net st e
  | none => listEntryFetch net st e
where
  /-- The changed-or-new path of the listing loop (fetch, cache, queue). -/
  listEntryFetch (net : SyncNet) (st : ListingState) (e : RootEntry) :
      ListingState :=
    match fetchItem net e with
    | (.error _, n) => { st with fetchCounts := st.fetchCounts ++ [(e.id, n)] }
    | (.ok none, n) => { st with fetchCounts := st.fetchCounts ++ [(e.id, n)] }
    | (.ok (some item), n) =>
        { cache := cacheSet st.cache item.id
            ⟨item.hash, item.lastModified,
              ((cacheGet st.cache item.id).map SyncRecord.vaultPath).getD "",
              item.visibleName, item.parent, item.mtype⟩,
          allItems := st.allItems ++ [item],
          changedDocs := st.changedDocs ++
            (if item.mtype == "DocumentType" then [item] else []),
          fetchCounts := st.fetchCounts ++ [(e.id, n)] }

/-- The listing loop of `sync` over all root entries. -/
def listEntries (net : SyncNet) (cache : SyncCache)
    (entries : List RootEntry) : ListingState :=
  entries.foldl (listEntryStep net) ⟨cache, [], [], []⟩

/-- The markdown output path checked by the skip test of the document loop
(`mdPath` in `sync`). -/
def mdPathOf (vaultPath visibleName : String) : String :=
  vaultPath ++ "/" ++ sanitizeFilename visibleName ++ ".md"

/-- Skip test of the document loop of `sync` (lines 102–108): skip when the
(just rewritten) cache record still matches the document hash, carries a
truthy `vaultPath`, and the markdown output still exists in the vault. -/
def shouldSkipDoc (cache : SyncCache) (vault : List String)
    (doc : RemarkableItem) : Bool :=
  match cacheGet cache doc.id with
  | some ex =>
      ex.hash == doc.hash ∧ ex.vaultPath ≠ "" ∧
        vault.contains (mdPathOf ex.vaultPath doc.visibleName)
  | none => false

/-- One iteration of the document loop of `sync`.  A document that is not
skipped runs `syncDocument`; of that routine the model retains its
sync-state effect — the record is rewritten to `{hash, lastModified,
vaultPath}` only, dropping `visibleName`/`parent`/`type` — and the fact that
the full fetch–decode–render–write path ran (collected in the second
component); its network, decoding and vault-write effects have no bearing on
the claims and are not modelled. -/
def docStep (vault : List String) (syncFolder : String)
    (allItems : List RemarkableItem) (acc : SyncCache × List String)
    (doc : RemarkableItem) : SyncCache × List String :=
  if shouldSkipDoc acc.1 vault doc then acc
  else
    (cacheSet acc.1 doc.id
      ⟨doc.hash, doc.lastModified, getVaultPath syncFolder doc allItems,
        "", "", ""⟩,
     acc.2 ++ [doc.id])

/-- Trace of one root entry through a sync run: the number of blob fetches
the listing performed for it and whether the full document-processing path
ran for it. -/
structure ItemTrace where
  id : String
  fetches : Nat
  processed : Bool
deriving Repr, DecidableEq

/-- Model of one `sync` run (SyncEngine.ts, lines 44–128): list all root
entries (incremental fast path vs. full fetch), run the document loop over
the changed documents, then purge cached ids that are no longer among the
root entries.  Returns the final cache and a per-entry trace. -/
def syncRun (net : SyncNet) (vault : List String) (syncFolder : String)
    (cache : SyncCache) (entries : List RootEntry) :
    SyncCache × List ItemTrace :=
  let st := listEntries net cache entries
  let docResult := st.changedDocs.foldl (docStep vault syncFolder st.allItems)
    (st.cache, [])
  let cloudIds := entries.map RootEntry.id
  let finalCache := purgeCache docResult.1 cloudIds
  (finalCache,
   entries.map fun e =>
     ⟨e.id, ((st.fetchCounts.find? fun p => p.1 == e.id).map Prod.snd).getD 0,
      docResult.2.contains e.id⟩)

/-! ## Claim C3 -/

/-- A two-item parent cycle: item `a` has parent `b` and item `b` has
parent `a`. -/
def cycItems : List RemarkableItem :=
  [⟨"a", "", "A", "", "b", false, "CollectionType", []⟩,
   ⟨"b", "", "B", "", "a", false, "CollectionType", []⟩]

/-- On the cyclic item list the walk never finishes, whatever the iteration
budget. -/
lemma cycItems_walk_none (n : Nat) : ∀ parts,
    getVaultPathAux cycItems n "a" parts = none
  ∧ getVaultPathAux cycItems n "b" parts = none := by
  induction n with
  | zero => intro parts; exact ⟨rfl, rfl⟩
  | succ n ih =>
      intro parts
      constructor
      · show getVaultPathAux cycItems (n + 1) "a" parts = none
        simp only [getVaultPathAux, cycItems]
        norm_num [List.find?]
        exact (ih _).2
      · show getVaultPathAux cycItems (n + 1) "b" parts = none
        simp only [getVaultPathAux, cycItems]
        norm_num [List.find?]
        exact (ih _).1

/-- C3 counterexample to the claim as stated: the walk has no visited-set
guard — on a concrete two-item parent cycle `getVaultPath`'s loop never
terminates (no iteration budget makes it finish), instead of stopping with a
malformed-hierarchy report. -/
theorem claim_C3_counterexample : ¬ walkTerminates cycItems "a" := by
  rintro ⟨n, hn⟩
  rw [(cycItems_walk_none n []).1] at hn
  simp at hn

/-- C3 as amended: the parent-chain walk terminates on every acyclic item
list — witnessed by any rank function that decreases from child to parent —
and it stops at the root sentinel (empty string), the trash sentinel, or an
unresolved parent, the latter truncating the accumulated path rather than
failing.  (There is no visited-set guard; on a cyclic list the walk loops
forever, see the counterexample.) -/
theorem claim_C3 (items : List RemarkableItem) (rank : String → Nat)
    (hr : ∀ it ∈ items, rank it.parent < rank it.id) :
    (∀ p parts n, rank p < n → (getVaultPathAux items n p parts).isSome)
  ∧ (∀ p, walkTerminates items p)
  ∧ (∀ n parts, getVaultPathAux items (n + 1) "" parts = some parts)
  ∧ (∀ n parts, getVaultPathAux items (n + 1) "trash" parts = some parts)
  ∧ (∀ n parts p, p ≠ "" → p ≠ "trash" →
       (items.find? fun i => i.id == p) = none →
       getVaultPathAux items (n + 1) p parts = some parts) := by
  have main : ∀ n p parts, rank p < n →
      (getVaultPathAux items n p parts).isSome := by
    intro n
    induction n with
    | zero => intro p parts h; omega
    | succ n ih =>
        intro p parts h
        by_cases hp : p = "" ∨ p = "trash"
        · simp [getVaultPathAux, hp]
        · simp only [getVaultPathAux, if_neg hp]
          cases hfind : items.find? fun i => i.id == p with
          | none => simp
          | some it =>
              apply ih
              have hmem : it ∈ items := List.mem_of_find?_eq_some hfind
              have hid : it.id = p := by
                have := List.find?_some hfind
                simpa using this
              have := hr it hmem
              rw [hid] at this
              omega
  refine ⟨fun p parts n h => main n p parts h,
    fun p => ⟨rank p + 1, main (rank p + 1) p [] (Nat.lt_succ_self _)⟩,
    ?_, ?_, ?_⟩
  · intro n parts; simp [getVaultPathAux]
  · intro n parts; simp [getVaultPathAux]
  · intro n parts p h1 h2 hfind
    simp [getVaultPathAux, h1, h2, hfind]

/-- A one-item acyclic list used to exercise the walk. -/
def folderItems : List RemarkableItem :=
  [⟨"f1", "", "Folder", "", "", false, "CollectionType", []⟩]

/-- C3 witness: on a concrete acyclic item list the walk terminates and
produces the folder path. -/
theorem claim_C3_witness :
    walkTerminates folderItems "f1"
  ∧ getVaultPathAux folderItems 2 "f1" [] = some ["Folder"] := by
  refine ⟨(claim_C3 folderItems
      (fun s => if s = "f1" then 1 else 0) ?_).2.1 "f1", by decide⟩
  intro it hmem
  simp only [folderItems, List.mem_singleton] at hmem
  subst hmem
  decide

/-! ## Claim C10 -/

/-- Lookup through the reconciliation filter: a kept id finds its original
record, a purged id finds nothing. -/
lemma find?_filter_contains (l : SyncCache) (ids : List String) (id : String) :
    (l.filter fun p => ids.contains p.1).find? (fun p => p.1 == id)
      = if ids.contains id then l.find? (fun p => p.1 == id) else none := by
  induction l with
  | nil => simp
  | cons p t ih =>
      obtain ⟨k, r⟩ := p
      rw [List.filter_cons]
      by_cases hk : k = id
      · subst hk
        by_cases hm : ids.contains k
        · rw [if_pos hm, if_pos hm]
          simp [List.find?_cons]
        · have hm2 : ¬(ids.contains k = true) := hm
          rw [if_neg hm2, if_neg hm2, ih, if_neg hm2]
      · have hbk : (k == id) = false := by simpa using hk
        by_cases hm : ids.contains k
        · rw [if_pos hm]
          simp only [List.find?_cons, hbk]
          exact ih
        · rw [if_neg hm, ih]
          by_cases hid : ids.contains id
          · rw [if_pos hid, if_pos hid]
            simp only [List.find?_cons, hbk]
          · rw [if_neg hid, if_neg hid]

/-- Lookup after the reconciliation filter. -/
lemma cacheGet_purge (cache : SyncCache) (ids : List String) (id : String) :
    (ids.contains id = false → cacheGet (purgeCache cache ids) id = none)
  ∧ (ids.contains id = true →
       cacheGet (purgeCache cache ids) id = cacheGet cache id) := by
  unfold cacheGet purgeCache
  rw [find?_filter_contains]
  constructor
  · intro h
    rw [if_neg (fun hc => by rw [h] at hc; exact Bool.false_ne_true hc)]
    rfl
  · intro h
    rw [if_pos h]

/-- C10: after a completed sync run every cache record whose id is absent
from the current root entries-list has been removed, and the reconciliation
step leaves every record whose id is present untouched (it modifies or
removes no other entry). -/
theorem claim_C10 (net : SyncNet) (vault : List String) (sf : String)
    (cache extra : SyncCache) (entries : List RootEntry) (id : String) :
    ((entries.map RootEntry.id).contains id = false →
       cacheGet (syncRun net vault sf cache entries).1 id = none)
  ∧ (∀ ids : List String, ids.contains id = false →
       cacheGet (purgeCache extra ids) id = none)
  ∧ (∀ ids : List String, ids.contains id = true →
       cacheGet (purgeCache extra ids) id = cacheGet extra id) := by
  refine ⟨fun habs => ?_, fun ids habs => (cacheGet_purge extra ids id).1 habs,
    fun ids hpres => (cacheGet_purge extra ids id).2 hpres⟩
  exact (cacheGet_purge _ _ id).1 habs

/-- C10 witness: a concrete run over an empty entries list purges the stale
record, and the purge step keeps present ids untouched. -/
theorem claim_C10_witness :
    cacheGet (syncRun ⟨fun _ => none, fun _ => none⟩ [] "remarkable"
      [("gone", ⟨"h", "t", "p", "", "", ""⟩)] []).1 "gone" = none
  ∧ cacheGet (purgeCache [("kept", ⟨"h", "t", "p", "", "", ""⟩)] ["kept"])
      "kept" = some ⟨"h", "t", "p", "", "", ""⟩ := by
  refine ⟨(claim_C10 ⟨fun _ => none, fun _ => none⟩ [] "remarkable"
      [("gone", ⟨"h", "t", "p", "", "", ""⟩)] [] [] "gone").1 (by decide), ?_⟩
  have hc := (claim_C10 ⟨fun _ => none, fun _ => none⟩ [] "remarkable" []
      [("kept", ⟨"h", "t", "p", "", "", ""⟩)] [] "kept").2.2 ["kept"]
      (by decide)
  rw [hc]
  decide

/-! ## Claim C1 -/

/-- Find after the overwrite map of `cacheSet`. -/
lemma find?_map_update (t : SyncCache) (id : String) (r : SyncRecord) :
    (t.map fun p => if p.1 == id then (id, r) else p).find? (fun p => p.1 == id)
      = if (t.find? fun p => p.1 == id).isSome then some (id, r) else none := by
  induction t with
  | nil => simp
  | cons p t ih =>
      obtain ⟨k, s⟩ := p
      by_cases hk : (k == id) = true
      · have h1 : ((k, s) :: t).map (fun p => if p.1 == id then (id, r) else p)
            = (id, r) :: t.map (fun p => if p.1 == id then (id, r) else p) := by
          rw [List.map_cons]
          congr 1
          exact if_pos hk
        rw [h1, List.find?_cons, List.find?_cons]
        simp [hk]
      · have hne : (k == id) = false := by simpa using hk
        have h1 : ((k, s) :: t).map (fun p => if p.1 == id then (id, r) else p)
            = (k, s) :: t.map (fun p => if p.1 == id then (id, r) else p) := by
          rw [List.map_cons]
          congr 1
          exact if_neg (by simp [hne])
        rw [h1, List.find?_cons, List.find?_cons]
        simp only [hne]
        exact ih

/-- A cache assignment is visible to the next lookup of the same id. -/
lemma cacheGet_cacheSet (c : SyncCache) (id : String) (r : SyncRecord) :
    cacheGet (cacheSet c id r) id = some r := by
  unfold cacheSet cacheGet
  by_cases hs : (c.find? fun p => p.1 == id).isSome
  · rw [if_pos hs, find?_map_update, if_pos hs]
    rfl
  · rw [if_neg hs, List.find?_append, Option.not_isSome_iff_eq_none.mp hs]
    simp [List.find?_cons]

/-- C1 as amended: per root entry with a cached record whose hash equals the
current entry hash — (i) when the record still carries a (truthy)
`visibleName` and `type`, sync reconstructs the item from the cache and
performs zero blob fetches for it, skipping re-processing even when the
recorded output no longer exists; (ii) when the record lacks `visibleName`
or `type` (the shape `syncDocument` leaves behind), sync re-fetches the
item's entries list and metadata (two blob fetches) and then either skips
rendering because the recorded output markdown still exists, or (iii) forces
the full re-processing path for that item when it does not. -/
theorem claim_C1 (net : SyncNet) (vault : List String) (sf : String)
    (cache : SyncCache) (e : RootEntry) (r : SyncRecord)
    (hc : cacheGet cache e.id = some r) (hh : r.hash = e.hash) :
    (r.visibleName ≠ "" → r.mtype ≠ "" →
       (syncRun net vault sf cache [e]).2 = [⟨e.id, 0, false⟩])
  ∧ (∀ fes me md, (r.visibleName = "" ∨ r.mtype = "") →
       net.entriesOf e.hash = some fes →
       (fes.find? fun fe => strEndsWith fe.id ".metadata") = some me →
       net.metaOf me.hash = some md →
       md.deleted = false → md.mtype = "DocumentType" →
       r.vaultPath ≠ "" →
       vault.contains (mdPathOf r.vaultPath md.visibleName) = true →
       (syncRun net vault sf cache [e]).2 = [⟨e.id, 2, false⟩])
  ∧ (∀ fes me md, (r.visibleName = "" ∨ r.mtype = "") →
       net.entriesOf e.hash = some fes →
       (fes.find? fun fe => strEndsWith fe.id ".metadata") = some me →
       net.metaOf me.hash = some md →
       md.deleted = false → md.mtype = "DocumentType" →
       (r.vaultPath = "" ∨
         vault.contains (mdPathOf r.vaultPath md.visibleName) = false) →
       (syncRun net vault sf cache [e]).2 = [⟨e.id, 2, true⟩]) := by
  refine ⟨?_, ?_, ?_⟩
  · intro hv ht
    simp [syncRun, listEntries, listEntryStep, hc, hh, hv, ht,
      List.find?_cons]
  · intro fes me md hstale hfes hme hmd hdel htype hvp hout
    have hcond : ¬(r.hash == e.hash ∧ r.visibleName ≠ "" ∧ r.mtype ≠ "") := by
      rcases hstale with h | h <;> simp [h]
    simp only [syncRun, listEntries, List.foldl_cons, List.foldl_nil,
      listEntryStep, hc, if_neg hcond, listEntryStep.listEntryFetch,
      fetchItem, hfes, hme, hmd, hdel, htype]
    norm_num [hc, docStep, shouldSkipDoc, cacheGet_cacheSet, mdPathOf,
      hout, hvp, List.find?_cons]
    have hmem : r.vaultPath ++ "/" ++ sanitizeFilename md.visibleName ++ ".md"
        ∈ vault := by simpa [mdPathOf] using hout
    rw [if_pos hmem]
    simp
  · intro fes me md hstale hfes hme hmd hdel htype hmiss
    have hcond : ¬(r.hash == e.hash ∧ r.visibleName ≠ "" ∧ r.mtype ≠ "") := by
      rcases hstale with h | h <;> simp [h]
    simp only [syncRun, listEntries, List.foldl_cons, List.foldl_nil,
      listEntryStep, hc, if_neg hcond, listEntryStep.listEntryFetch,
      fetchItem, hfes, hme, hmd, hdel, htype]
    rcases hmiss with h | h
    · norm_num [hc, docStep, shouldSkipDoc, cacheGet_cacheSet, mdPathOf, h,
        List.find?_cons]
    · norm_num [hc, docStep, shouldSkipDoc, cacheGet_cacheSet, mdPathOf,
        List.find?_cons]
      have hnotmem : r.vaultPath ++ "/" ++ sanitizeFilename md.visibleName
          ++ ".md" ∉ vault := by simpa [mdPathOf] using h
      rw [if_neg fun hcj => hnotmem hcj.2]
      simp

/-- A fully populated cache record for document `d1` at hash `h1`. -/
def fullRecord : SyncRecord := ⟨"h1", "t1", "remarkable", "Doc", "", "DocumentType"⟩

/-- A `syncDocument`-shaped cache record for `d1` (no `visibleName`/`type`). -/
def staleRecord : SyncRecord := ⟨"h1", "t1", "remarkable", "", "", ""⟩

/-- A network oracle serving `d1`'s entries list and metadata. -/
def c1Net : SyncNet :=
  ⟨fun h => if h = "h1" then some [⟨"x.metadata", "mh"⟩] else none,
   fun h => if h = "mh" then some ⟨false, "Doc", "t2", "", false, "DocumentType"⟩
     else none⟩

/-- C1 counterexample to the claim as stated: for a cached record whose hash
matches the current entry hash and still carries `visibleName`/`type`, a run
against an empty vault — the recorded output does not exist — performs zero
fetches and does **not** re-process the item (the trace shows
`processed = false`), where the claim demands full re-processing. -/
theorem claim_C1_counterexample :
    cacheGet [("d1", fullRecord)] "d1" = some fullRecord
  ∧ ([] : List String).contains (mdPathOf "remarkable" "Doc") = false
  ∧ (syncRun ⟨fun _ => none, fun _ => none⟩ [] "remarkable"
      [("d1", fullRecord)] [⟨"d1", "h1"⟩]).2 = [⟨"d1", 0, false⟩] :=
  ⟨by decide, by decide, by decide⟩

/-- C1 witness: the amended claim at concrete inputs — a fully cached item is
untouched at zero fetches, and a stale-shaped record with a missing output
triggers two metadata fetches and full re-processing. -/
theorem claim_C1_witness :
    (syncRun ⟨fun _ => none, fun _ => none⟩ [] "remarkable"
      [("d1", fullRecord)] [⟨"d1", "h1"⟩]).2 = [⟨"d1", 0, false⟩]
  ∧ (syncRun c1Net [] "remarkable" [("d1", staleRecord)] [⟨"d1", "h1"⟩]).2
      = [⟨"d1", 2, true⟩] := by
  constructor
  · exact (claim_C1 ⟨fun _ => none, fun _ => none⟩ [] "remarkable"
      [("d1", fullRecord)] ⟨"d1", "h1"⟩ fullRecord (by decide) rfl).1
      (by decide) (by decide)
  · exact (claim_C1 c1Net [] "remarkable" [("d1", staleRecord)]
      ⟨"d1", "h1"⟩ staleRecord (by decide) rfl).2.2
      [⟨"x.metadata", "mh"⟩] ⟨"x.metadata", "mh"⟩
      ⟨false, "Doc", "t2", "", false, "DocumentType"⟩
      (Or.inl rfl) (by decide) (by decide) (by decide) rfl rfl
      (Or.inr (by decide))

/-! ## Notebook binary decoder, formats 3 and 5 (src/RmParser.ts) -/

/-- Byte-level model of `DataView.getUint8`: `none` models the thrown
`RangeError` on an out-of-bounds read. -/
def dvU8 (b : List Nat) (i : Nat) : Option Nat := b.get? i

/-- Byte-level model of little-endian `DataView.getUint16`. -/
def dvU16 (b : List Nat) (i : Nat) : Option Nat := do
  let b0 ← b.get? i
  let b1 ← b.get? (i + 1)
  pure (b0 + 256 * b1)

/-- Byte-level model of little-endian `DataView.getUint32`; also models
`getFloat32`, whose result is carried as the raw 32-bit pattern. -/
def dvU32 (b : List Nat) (i : Nat) : Option Nat := do
  let b0 ← b.get? i
  let b1 ← b.get? (i + 1)
  let b2 ← b.get? (i + 2)
  let b3 ← b.get? (i + 3)
  pure (b0 + 256 * b1 + 65536 * b2 + 16777216 * b3)

/-- Byte-level model of `DataView.getFloat64`, carried as the raw 64-bit
pattern. -/
def dvF64 (b : List Nat) (i : Nat) : Option Nat := do
  let lo ← dvU32 b i
  let hi ← dvU32 b (i + 4)
  pure (lo + 4294967296 * hi)

/-- Segment loop of `parseStroke` (RmParser.ts): per segment six
little-endian float32 reads in order x, y, speed, direction, width,
pressure, 24 bytes apiece.  Returns the segments and the final offset. -/
def parseSegments (b : List Nat) : Nat → Nat → Option (List RmSegment × Nat)
  | 0, off => some ([], off)
  | n + 1, off => do
      let x ← dvU32 b off
      let y ← dvU32 b (off + 4)
      let speed ← dvU32 b (off + 8)
      let direction ← dvU32 b (off + 12)
      let width ← dvU32 b (off + 16)
      let pressure ← dvU32 b (off + 20)
      let (rest, off2) ← parseSegments b n (off + 24)
      some (⟨(x : ℚ), (y : ℚ), (speed : ℚ), (direction : ℚ), (width : ℚ),
        (pressure : ℚ)⟩ :: rest, off2)

/-- Stroke decoder (`parseStroke` in RmParser.ts): pen, color, one reserved
field (skipped without a read), float32 width, an extra reserved 4-byte
field for format 5 only, then the 4-byte segment count and the segments. -/
def parseStroke (b : List Nat) (off version : Nat) :
    Option (RmStroke × Nat) := do
  let pen ← dvU32 b off
  let color ← dvU32 b (off + 4)
  let width ← dvU32 b (off + 12)
  let off1 := off + 16 + (if version = 5 then 4 else 0)
  let nSegments ← dvU32 b off1
  let (segments, off2) ← parseSegments b nSegments (off1 + 4)
  some (⟨pen, color, (width : ℚ), segments⟩, off2)

/-- Stroke loop of `parseLayer`. -/
def parseStrokes (b : List Nat) (version : Nat) :
    Nat → Nat → Option (List RmStroke × Nat)
  | 0, off => some ([], off)
  | n + 1, off => do
      let (stroke, off1) ← parseStroke b off version
      let (rest, off2) ← parseStrokes b version n off1
      some (stroke :: rest, off2)

/-- Layer decoder (`parseLayer` in RmParser.ts): a 4-byte little-endian
stroke count, then the strokes. -/
def parseLayer (b : List Nat) (off version : Nat) :
    Option (RmLayer × Nat) := do
  let nStrokes ← dvU32 b off
  let (strokes, off2) ← parseStrokes b version nStrokes (off + 4)
  some (⟨strokes⟩, off2)

/-- Layer loop of `parsePageData`. -/
def parseLayers (b : List Nat) (version : Nat) :
    Nat → Nat → Option (List RmLayer × Nat)
  | 0, off => some ([], off)
  | n + 1, off => do
      let (layer, off1) ← parseLayer b off version
      let (rest, off2) ← parseLayers b version n off1
      some (layer :: rest, off2)

/-- Page-body decoder (`parsePageData` in RmParser.ts): a 4-byte page header
whose first byte is the layer count (the remaining 3 bytes are skipped
without a read), then the layers.  The source discards the final offset; it
is returned here so that exact consumption can be stated. -/
def parsePageData (b : List Nat) (startOffset version : Nat) :
    Option (List RmLayer × Nat) := do
  let nLayers ← dvU8 b startOffset
  let (layers, off2) ← parseLayers b version nLayers (startOffset + 4)
  some (layers, off2)

/-! Reference encoders for the format 3/5 body, used to express that the
decoder consumes exactly the declared layout. -/

/-- Declared field content of one encoded segment (each field the raw 32-bit
pattern of the stored float32). -/
structure SegSpec where
  x : Nat
  y : Nat
  speed : Nat
  direction : Nat
  width : Nat
  pressure : Nat
deriving Repr, DecidableEq

/-- Declared content of one encoded stroke. -/
structure StrokeSpec where
  pen : Nat
  color : Nat
  width : Nat
  segments : List SegSpec
deriving Repr, DecidableEq

/-- Little-endian 4-byte encoding of a 32-bit value. -/
def encU32 (n : Nat) : List Nat :=
  [n % 256, n / 256 % 256, n / 65536 % 256, n / 16777216 % 256]

/-- Encode one segment: six float32 fields in order x, y, speed, direction,
width, pressure. -/
def encSeg (s : SegSpec) : List Nat :=
  encU32 s.x ++ encU32 s.y ++ encU32 s.speed ++ encU32 s.direction ++
    encU32 s.width ++ encU32 s.pressure

/-- Encode one stroke: pen, color, reserved, width, the extra reserved field
for format 5, segment count, segments. -/
def encStroke (version : Nat) (s : StrokeSpec) : List Nat :=
  encU32 s.pen ++ encU32 s.color ++ encU32 0 ++ encU32 s.width ++
    (if version = 5 then encU32 0 else []) ++ encU32 s.segments.length ++
    (s.segments.map encSeg).flatten

/-- Encode one layer: stroke count, strokes. -/
def encLayer (version : Nat) (l : List StrokeSpec) : List Nat :=
  encU32 l.length ++ (l.map (encStroke version)).flatten

/-- Encode a page body: layer count in the first byte of the 4-byte page
header, then the layers. -/
def encPage (version : Nat) (p : List (List StrokeSpec)) : List Nat :=
  p.length :: 0 :: 0 :: 0 :: (p.map (encLayer version)).flatten

/-- The decoded form of an encoded segment. -/
def decSeg (s : SegSpec) : RmSegment :=
  ⟨s.x, s.y, s.speed, s.direction, s.width, s.pressure⟩

/-- The decoded form of an encoded stroke. -/
def decStroke (s : StrokeSpec) : RmStroke :=
  ⟨s.pen, s.color, s.width, s.segments.map decSeg⟩

/-- The decoded form of an encoded layer. -/
def decLayer (l : List StrokeSpec) : RmLayer :=
  ⟨l.map decStroke⟩

/-- Stroke-header size of the two fixed-layout formats, including the
segment count (format 5 carries one extra reserved 4-byte field). -/
def strokeHeaderSize (version : Nat) : Nat := if version = 5 then 24 else 20

/-- Field bounds making a segment encodable in 32-bit fields. -/
def wfSeg (s : SegSpec) : Prop :=
  s.x < 4294967296 ∧ s.y < 4294967296 ∧ s.speed < 4294967296 ∧
    s.direction < 4294967296 ∧ s.width < 4294967296 ∧ s.pressure < 4294967296

/-- Field bounds making a stroke encodable. -/
def wfStroke (s : StrokeSpec) : Prop :=
  s.pen < 4294967296 ∧ s.color < 4294967296 ∧ s.width < 4294967296 ∧
    s.segments.length < 4294967296 ∧ ∀ sg ∈ s.segments, wfSeg sg

/-- Field bounds making a layer encodable. -/
def wfLayer (l : List StrokeSpec) : Prop :=
  l.length < 4294967296 ∧ ∀ s ∈ l, wfStroke s

/-- Field bounds making a page body encodable (the layer count must fit the
single header byte). -/
def wfPage (p : List (List StrokeSpec)) : Prop :=
  p.length < 256 ∧ ∀ l ∈ p, wfLayer l

/-! ## Claim C5 -/

/-- Reading at an offset equals reading the dropped suffix. -/
lemma dvU32_drop (b : List Nat) (off c : Nat) :
    dvU32 b (off + c) = dvU32 (b.drop off) c := by
  simp [dvU32, List.get?_drop, Nat.add_assoc]

/-- Reading a byte at an offset equals reading the dropped suffix. -/
lemma dvU8_drop (b : List Nat) (off c : Nat) :
    dvU8 b (off + c) = dvU8 (b.drop off) c := by
  simp [dvU8, List.get?_drop]

/-- The segment loop decodes an encoded segment sequence and consumes
exactly 24 bytes per segment. -/
lemma parseSegments_spec (b : List Nat) (ss : List SegSpec) (tail : List Nat)
    (hwf : ∀ s ∈ ss, wfSeg s) :
    ∀ off, b.drop off = (ss.map encSeg).flatten ++ tail →
      parseSegments b ss.length off
        = some (ss.map decSeg, off + 24 * ss.length) := by
  induction ss with
  | nil =>
      intro off hdrop
      simp [parseSegments]
  | cons s rest ih =>
      intro off hdrop
      obtain ⟨h1, h2, h3, h4, h5, h6⟩ := hwf s (List.mem_cons_self s rest)
      have hrest : ∀ s2 ∈ rest, wfSeg s2 := fun s2 h =>
        hwf s2 (List.mem_cons_of_mem _ h)
      have hd : b.drop off
          = encSeg s ++ ((rest.map encSeg).flatten ++ tail) := by
        simpa [List.append_assoc] using hdrop
      have hread : ∀ c v,
          dvU32 (encSeg s ++ ((rest.map encSeg).flatten ++ tail)) c = some v →
          dvU32 b (off + c) = some v := by
        intro c v h
        rw [dvU32_drop, hd]
        exact h
      have r0 : dvU32 b off = some s.x := by
        have := hread 0 s.x (by simp [dvU32, encSeg, encU32]; omega)
        simpa using this
      have r1 : dvU32 b (off + 4) = some s.y :=
        hread 4 s.y (by simp [dvU32, encSeg, encU32]; omega)
      have r2 : dvU32 b (off + 8) = some s.speed :=
        hread 8 s.speed (by simp [dvU32, encSeg, encU32]; omega)
      have r3 : dvU32 b (off + 12) = some s.direction :=
        hread 12 s.direction (by simp [dvU32, encSeg, encU32]; omega)
      have r4 : dvU32 b (off + 16) = some s.width :=
        hread 16 s.width (by simp [dvU32, encSeg, encU32]; omega)
      have r5 : dvU32 b (off + 20) = some s.pressure :=
        hread 20 s.pressure (by simp [dvU32, encSeg, encU32]; omega)
      have hstep : b.drop (off + 24) = (rest.map encSeg).flatten ++ tail := by
        have hdd : b.drop (off + 24) = (b.drop off).drop 24 := by
          rw [List.drop_drop]
        rw [hdd, hd]
        simp [encSeg, encU32]
      have hih := ih hrest (off + 24) hstep
      simp only [List.length_cons, parseSegments, r0, r1, r2, r3, r4, r5,
        Option.some_bind, hih, List.map_cons]
      simp [decSeg]
      omega

/-- Encoded segment length. -/
lemma encSeg_length (s : SegSpec) : (encSeg s).length = 24 := by
  simp [encSeg, encU32]

/-- Encoded length of a segment sequence. -/
lemma flattenSegs_length (ss : List SegSpec) :
    ((ss.map encSeg).flatten).length = 24 * ss.length := by
  induction ss with
  | nil => simp
  | cons s rest ih => simp [encSeg_length, ih]; omega

/-- Encoded length of a segment sequence, in the mapped-sum form. -/
lemma mapSegs_sum (ss : List SegSpec) :
    (ss.map (List.length ∘ encSeg)).sum = 24 * ss.length := by
  induction ss with
  | nil => simp
  | cons s rest ih =>
      simp [encSeg_length, ih]
      omega

/-- Encoded stroke length. -/
lemma encStroke_length (version : Nat) (s : StrokeSpec) :
    (encStroke version s).length
      = strokeHeaderSize version + 24 * s.segments.length := by
  by_cases h : version = 5 <;>
    simp [encStroke, encU32, strokeHeaderSize, mapSegs_sum, h] <;>
    omega

/-- The stroke decoder decodes an encoded stroke and consumes exactly its
header plus 24 bytes per segment. -/
lemma parseStroke_spec (b : List Nat) (version : Nat)
    (hv : version = 3 ∨ version = 5) (s : StrokeSpec) (tail : List Nat)
    (hwf : wfStroke s) :
    ∀ off, b.drop off = encStroke version s ++ tail →
      parseStroke b off version
        = some (decStroke s,
            off + (strokeHeaderSize version + 24 * s.segments.length)) := by
  intro off hdrop
  obtain ⟨h1, h2, h3, h4, h5⟩ := hwf
  rcases hv with hv | hv
  · subst hv
    have hd : b.drop off
        = encU32 s.pen ++ (encU32 s.color ++ (encU32 0 ++ (encU32 s.width ++
            (encU32 s.segments.length ++
              ((s.segments.map encSeg).flatten ++ tail))))) := by
      simpa [encStroke, List.append_assoc] using hdrop
    have hread : ∀ c v,
        dvU32 (encU32 s.pen ++ (encU32 s.color ++ (encU32 0 ++
          (encU32 s.width ++ (encU32 s.segments.length ++
            ((s.segments.map encSeg).flatten ++ tail)))))) c = some v →
        dvU32 b (off + c) = some v := by
      intro c v h
      rw [dvU32_drop, hd]
      exact h
    have r0 : dvU32 b off = some s.pen := by
      have := hread 0 s.pen (by simp [dvU32, encU32]; omega)
      simpa using this
    have r1 : dvU32 b (off + 4) = some s.color :=
      hread 4 s.color (by simp [dvU32, encU32]; omega)
    have r2 : dvU32 b (off + 12) = some s.width :=
      hread 12 s.width (by simp [dvU32, encU32]; omega)
    have r3 : dvU32 b (off + 16) = some s.segments.length :=
      hread 16 s.segments.length (by simp [dvU32, encU32]; omega)
    have hstep : b.drop (off + 20) = (s.segments.map encSeg).flatten ++ tail := by
      have hdd : b.drop (off + 20) = (b.drop off).drop 20 := by
        rw [List.drop_drop]
      rw [hdd, hd]
      simp [encU32]
    have hsegs := parseSegments_spec b s.segments tail h5 (off + 20) hstep
    simp only [parseStroke, r0, r1, Option.some_bind]
    norm_num [r2, r3, hsegs, decStroke, strokeHeaderSize]
    omega
  · subst hv
    have hd : b.drop off
        = encU32 s.pen ++ (encU32 s.color ++ (encU32 0 ++ (encU32 s.width ++
            (encU32 0 ++ (encU32 s.segments.length ++
              ((s.segments.map encSeg).flatten ++ tail)))))) := by
      simpa [encStroke, List.append_assoc] using hdrop
    have hread : ∀ c v,
        dvU32 (encU32 s.pen ++ (encU32 s.color ++ (encU32 0 ++
          (encU32 s.width ++ (encU32 0 ++ (encU32 s.segments.length ++
            ((s.segments.map encSeg).flatten ++ tail))))))) c = some v →
        dvU32 b (off + c) = some v := by
      intro c v h
      rw [dvU32_drop, hd]
      exact h
    have r0 : dvU32 b off = some s.pen := by
      have := hread 0 s.pen (by simp [dvU32, encU32]; omega)
      simpa using this
    have r1 : dvU32 b (off + 4) = some s.color :=
      hread 4 s.color (by simp [dvU32, encU32]; omega)
    have r2 : dvU32 b (off + 12) = some s.width :=
      hread 12 s.width (by simp [dvU32, encU32]; omega)
    have r3 : dvU32 b (off + 20) = some s.segments.length :=
      hread 20 s.segments.length (by simp [dvU32, encU32]; omega)
    have hstep : b.drop (off + 24) = (s.segments.map encSeg).flatten ++ tail := by
      have hdd : b.drop (off + 24) = (b.drop off).drop 24 := by
        rw [List.drop_drop]
      rw [hdd, hd]
      simp [encU32]
    have hsegs := parseSegments_spec b s.segments tail h5 (off + 24) hstep
    simp only [parseStroke, r0, r1, Option.some_bind]
    norm_num [r2, r3, hsegs, decStroke, strokeHeaderSize]
    omega

/-- Declared byte size of an encoded stroke list. -/
def strokesSize (version : Nat) (ls : List StrokeSpec) : Nat :=
  (ls.map fun s => strokeHeaderSize version + 24 * s.segments.length).sum

/-- The stroke loop decodes an encoded stroke sequence and consumes exactly
its declared size. -/
lemma parseStrokes_spec (b : List Nat) (version : Nat)
    (hv : version = 3 ∨ version = 5) (ls : List StrokeSpec)
    (tail : List Nat) (hwf : ∀ s ∈ ls, wfStroke s) :
    ∀ off, b.drop off = (ls.map (encStroke version)).flatten ++ tail →
      parseStrokes b version ls.length off
        = some (ls.map decStroke, off + strokesSize version ls) := by
  induction ls with
  | nil =>
      intro off hdrop
      simp [parseStrokes, strokesSize]
  | cons s rest ih =>
      intro off hdrop
      have hs := hwf s (List.mem_cons_self s rest)
      have hrest : ∀ s2 ∈ rest, wfStroke s2 := fun s2 h =>
        hwf s2 (List.mem_cons_of_mem _ h)
      have hd : b.drop off
          = encStroke version s ++ ((rest.map (encStroke version)).flatten ++ tail) := by
        simpa [List.append_assoc] using hdrop
      have hone := parseStroke_spec b version hv s
        ((rest.map (encStroke version)).flatten ++ tail) hs off hd
      have hstep : b.drop (off + (strokeHeaderSize version + 24 * s.segments.length))
          = (rest.map (encStroke version)).flatten ++ tail := by
        have hdd : b.drop (off + (strokeHeaderSize version + 24 * s.segments.length))
            = (b.drop off).drop (strokeHeaderSize version + 24 * s.segments.length) := by
          rw [List.drop_drop]
        rw [hdd, hd, ← encStroke_length version s]
        exact List.drop_left _ _
      have hih := ih hrest (off + (strokeHeaderSize version + 24 * s.segments.length)) hstep
      simp only [List.length_cons, parseStrokes]
      rw [hone]
      simp only [bind, Option.bind]
      rw [hih]
      simp [strokesSize]
      omega

/-- The layer decoder decodes an encoded layer and consumes exactly its
declared size. -/
lemma parseLayer_spec (b : List Nat) (version : Nat)
    (hv : version = 3 ∨ version = 5) (l : List StrokeSpec) (tail : List Nat)
    (hwf : wfLayer l) :
    ∀ off, b.drop off = encLayer version l ++ tail →
      parseLayer b off version
        = some (decLayer l, off + (4 + strokesSize version l)) := by
  intro off hdrop
  obtain ⟨h1, h2⟩ := hwf
  have hd : b.drop off
      = encU32 l.length ++ ((l.map (encStroke version)).flatten ++ tail) := by
    simpa [encLayer, List.append_assoc] using hdrop
  have r0 : dvU32 b off = some l.length := by
    have : dvU32 (encU32 l.length ++ ((l.map (encStroke version)).flatten ++ tail)) 0
        = some l.length := by
      simp [dvU32, encU32]
      omega
    have h := dvU32_drop b off 0
    rw [Nat.add_zero] at h
    rw [h, hd]
    exact this
  have hstep : b.drop (off + 4) = (l.map (encStroke version)).flatten ++ tail := by
    have hdd : b.drop (off + 4) = (b.drop off).drop 4 := by
      rw [List.drop_drop]
    rw [hdd, hd]
    simp [encU32]
  have hstrokes := parseStrokes_spec b version hv l tail h2 (off + 4) hstep
  simp only [parseLayer]
  rw [r0]
  simp only [bind, Option.bind]
  rw [hstrokes]
  simp [decLayer]
  omega

/-- Declared byte size of an encoded layer list. -/
def layersSize (version : Nat) (p : List (List StrokeSpec)) : Nat :=
  (p.map fun l => 4 + strokesSize version l).sum

/-- Encoded length of a stroke sequence, in the mapped-sum form. -/
lemma mapStrokes_sum (version : Nat) (l : List StrokeSpec) :
    (l.map (List.length ∘ encStroke version)).sum = strokesSize version l := by
  induction l with
  | nil => simp [strokesSize]
  | cons s rest ih =>
      simp [strokesSize, encStroke_length] at ih ⊢
      omega

/-- Encoded layer length. -/
lemma encLayer_length (version : Nat) (l : List StrokeSpec) :
    (encLayer version l).length = 4 + strokesSize version l := by
  simp [encLayer, encU32, mapStrokes_sum]
  omega

/-- The layer loop decodes an encoded layer sequence and consumes exactly
its declared size. -/
lemma parseLayers_spec (b : List Nat) (version : Nat)
    (hv : version = 3 ∨ version = 5) (p : List (List StrokeSpec))
    (tail : List Nat) (hwf : ∀ l ∈ p, wfLayer l) :
    ∀ off, b.drop off = (p.map (encLayer version)).flatten ++ tail →
      parseLayers b version p.length off
        = some (p.map decLayer, off + layersSize version p) := by
  induction p with
  | nil =>
      intro off hdrop
      simp [parseLayers, layersSize]
  | cons l rest ih =>
      intro off hdrop
      have hl := hwf l (List.mem_cons_self l rest)
      have hrest : ∀ l2 ∈ rest, wfLayer l2 := fun l2 h =>
        hwf l2 (List.mem_cons_of_mem _ h)
      have hd : b.drop off
          = encLayer version l ++ ((rest.map (encLayer version)).flatten ++ tail) := by
        simpa [List.append_assoc] using hdrop
      have hone := parseLayer_spec b version hv l
        ((rest.map (encLayer version)).flatten ++ tail) hl off hd
      have hstep : b.drop (off + (4 + strokesSize version l))
          = (rest.map (encLayer version)).flatten ++ tail := by
        have hdd : b.drop (off + (4 + strokesSize version l))
            = (b.drop off).drop (4 + strokesSize version l) := by
          rw [List.drop_drop]
        rw [hdd, hd, ← encLayer_length version l]
        exact List.drop_left _ _
      have hih := ih hrest (off + (4 + strokesSize version l)) hstep
      simp only [List.length_cons, parseLayers]
      rw [hone]
      simp only [bind, Option.bind]
      rw [hih]
      simp [layersSize]
      omega

/-- C5: for a format-3 or format-5 body laid out as declared — 4-byte page
header with the layer count in its first byte, per layer a 4-byte LE stroke
count, per stroke pen, color, one reserved field and float32 width (format 5
inserting one extra reserved 4-byte field), a 4-byte segment count, and per
segment six LE float32 fields in order x, y, speed, direction, width,
pressure — the decoder consumes exactly the declared number of bytes and
returns exactly the declared numbers of layers, strokes and segments. -/
theorem claim_C5 (version : Nat) (hv : version = 3 ∨ version = 5)
    (p : List (List StrokeSpec)) (hwf : wfPage p) (pre tail : List Nat) :
    parsePageData (pre ++ encPage version p ++ tail) pre.length version
      = some (p.map decLayer, pre.length + (encPage version p).length)
  ∧ (encPage version p).length = 4 + layersSize version p
  ∧ ((p.map decLayer).map fun l => l.strokes.length) = p.map List.length
  ∧ ((p.map decLayer).map fun l => l.strokes.map fun st => st.segments.length)
      = p.map fun l => l.map fun s => s.segments.length := by
  obtain ⟨h1, h2⟩ := hwf
  have hsum : (p.map (List.length ∘ encLayer version)).sum
      = layersSize version p := by
    clear h1 h2
    induction p with
    | nil => simp [layersSize]
    | cons l rest ih =>
        simp [encLayer_length, layersSize] at ih ⊢
        omega
  have hlen : (encPage version p).length = 4 + layersSize version p := by
    simp [encPage, hsum]
    omega
  have hd : (pre ++ encPage version p ++ tail).drop pre.length
      = encPage version p ++ tail := by
    rw [List.append_assoc]
    exact List.drop_left _ _
  have r0 : dvU8 (pre ++ encPage version p ++ tail) pre.length
      = some p.length := by
    have h := dvU8_drop (pre ++ encPage version p ++ tail) pre.length 0
    rw [Nat.add_zero] at h
    rw [h, hd]
    simp [dvU8, encPage]
  have hstep : (pre ++ encPage version p ++ tail).drop (pre.length + 4)
      = (p.map (encLayer version)).flatten ++ tail := by
    have hdd : (pre ++ encPage version p ++ tail).drop (pre.length + 4)
        = ((pre ++ encPage version p ++ tail).drop pre.length).drop 4 := by
      rw [List.drop_drop]
    rw [hdd, hd]
    simp [encPage]
  have hlayers := parseLayers_spec (pre ++ encPage version p ++ tail) version
    hv p tail h2 (pre.length + 4) hstep
  refine ⟨?_, hlen, ?_, ?_⟩
  · simp only [parsePageData]
    rw [r0]
    simp only [bind, Option.bind]
    rw [hlayers]
    simp [hlen]
    omega
  · simp [decLayer, decStroke, List.map_map, Function.comp]
  · simp [decLayer, decStroke, List.map_map, Function.comp]

/-- A concrete format-5 page: one layer, one stroke, two segments. -/
def c5spec : List (List StrokeSpec) :=
  [[⟨2, 0, 7, [⟨1, 2, 3, 4, 5, 6⟩, ⟨7, 8, 9, 10, 11, 12⟩]⟩]]

/-- C5 witness: the format-5 decoder run on the concrete encoded page
consumes all 80 declared bytes and returns the declared strokes and
segments. -/
theorem claim_C5_witness :
    wfPage c5spec
  ∧ parsePageData (([] : List Nat) ++ encPage 5 c5spec ++ []) 0 5
      = some (c5spec.map decLayer, 0 + (encPage 5 c5spec).length)
  ∧ (encPage 5 c5spec).length = 80 := by
  have hwf : wfPage c5spec := by
    constructor
    · norm_num [c5spec]
    · intro l hl
      simp only [c5spec, List.mem_singleton] at hl
      subst hl
      refine ⟨by norm_num, ?_⟩
      intro s hs
      simp only [List.mem_singleton] at hs
      subst hs
      refine ⟨by norm_num, by norm_num, by norm_num, by norm_num, ?_⟩
      intro sg hsg
      simp only [List.mem_cons, List.not_mem_nil, or_false] at hsg
      rcases hsg with h | h <;> subst h <;>
        exact ⟨by norm_num, by norm_num, by norm_num, by norm_num,
          by norm_num, by norm_num⟩
  have h := (claim_C5 5 (Or.inr rfl) c5spec hwf [] []).1
  exact ⟨hwf, by simpa using h, by decide⟩

/-! ## Notebook binary decoder, format 6 (src/RmParser.ts, v6 tagged-block
parser) -/

/-- The 43-byte header region length (`HEADER_LENGTH` in constants.ts). -/
def HEADER_LENGTH : Nat := 43

/-- JS `Uint8Array` read (`bytes[pos++]` in `V6Reader`): never throws; a read
past the end yields `undefined`, modelled by the sentinel 256, which like
`NaN` is unequal to every byte value and truthy. -/
def u8js (b : List Nat) (i : Nat) : Nat := (b.get? i).getD 256

/-- Loop body of `V6Reader.readVaruint`, with fuel equal to the remaining
byte count (the loop advances one byte per iteration and stops at the end of
the buffer, so this fuel is exact).  The JS 32-bit wrap of `|=`/`<<` is not
modelled; every varint in the claims is far below 2^31. -/
def readVaruintAux (b : List Nat) : Nat → Nat → Nat → Nat → Nat × Nat
  | 0, pos, _, acc => (acc, pos)
  | fuel + 1, pos, shift, acc =>
      if pos < b.length then
        let byte := u8js b pos
        let acc2 := acc ||| ((byte &&& 127) <<< shift)
        if byte &&& 128 = 0 then (acc2, pos + 1)
        else readVaruintAux b fuel (pos + 1) (shift + 7) acc2
      else (acc, pos)

/-- Varint reader (`V6Reader.readVaruint`). -/
def readVaruint (b : List Nat) (pos : Nat) : Nat × Nat :=
  readVaruintAux b (b.length - pos) pos 0 0

/-- Tag reader (`V6Reader.readTag`): low 4 bits select the wire type, the
remaining bits are the field index. -/
def readTag (b : List Nat) (pos : Nat) : (Nat × Nat) × Nat :=
  let (x, p) := readVaruint b pos
  ((x >>> 4, x &&& 15), p)

/-- Speculative tag probe (`V6Reader.checkTag`): on a mismatch the position
is restored. -/
def checkTag (b : List Nat) (pos expectedIndex expectedType : Nat) :
    Bool × Nat :=
  let ((i, t), p) := readTag b pos
  if i = expectedIndex ∧ t = expectedType then (true, p) else (false, pos)

/-- Mandatory tag read (`V6Reader.expectTag`): a mismatch throws. -/
def expectTag (b : List Nat) (pos expectedIndex expectedType : Nat) :
    Except Unit Nat :=
  let ((i, t), p) := readTag b pos
  if i = expectedIndex ∧ t = expectedType then .ok p else .error ()

/-- Identifier-pair skip (`V6Reader.readCrdtId`): one byte then a varint;
only the final position matters to this pipeline. -/
def readCrdtId (b : List Nat) (pos : Nat) : Nat :=
  (readVaruint b (pos + 1)).2

/-- Tagged identifier pair (`V6Reader.readTaggedId`). -/
def readTaggedId (b : List Nat) (pos idx : Nat) : Except Unit Nat := do
  let p ← expectTag b pos idx 15
  pure (readCrdtId b p)

/-- Fallible 4-byte read (`V6Reader.readUint32`/`readFloat32` via
`DataView`, which throws out of bounds). -/
def dvU32E (b : List Nat) (pos : Nat) : Except Unit (Nat × Nat) :=
  match dvU32 b pos with
  | some v => .ok (v, pos + 4)
  | none => .error ()

/-- Fallible 2-byte read (`V6Reader.readUint16`). -/
def dvU16E (b : List Nat) (pos : Nat) : Except Unit (Nat × Nat) :=
  match dvU16 b pos with
  | some v => .ok (v, pos + 2)
  | none => .error ()

/-- Fallible 8-byte read (`V6Reader.readFloat64`), carried as raw bits. -/
def dvF64E (b : List Nat) (pos : Nat) : Except Unit (Nat × Nat) :=
  match dvF64 b pos with
  | some v => .ok (v, pos + 8)
  | none => .error ()

/-- Tagged 4-byte integer (`V6Reader.readTaggedInt`). -/
def readTaggedInt (b : List Nat) (pos idx : Nat) : Except Unit (Nat × Nat) := do
  let p ← expectTag b pos idx 4
  dvU32E b p

/-- Tagged float32 (`V6Reader.readTaggedFloat`), value carried as raw bits. -/
def readTaggedFloat (b : List Nat) (pos idx : Nat) : Except Unit (Nat × Nat) := do
  let p ← expectTag b pos idx 4
  dvU32E b p

/-- Tagged float64 (`V6Reader.readTaggedDouble`), value carried as raw bits. -/
def readTaggedDouble (b : List Nat) (pos idx : Nat) : Except Unit (Nat × Nat) := do
  let p ← expectTag b pos idx 8
  dvF64E b p

/-- Length-prefixed sub-block header (`V6Reader.readSubblockHeader`). -/
def readSubblockHeader (b : List Nat) (pos idx : Nat) : Except Unit (Nat × Nat) := do
  let p ← expectTag b pos idx 12
  dvU32E b p

/-- Point loop of `parseV6LineBlock`.  Version-2 points are the compact
14-byte records (x f32, y f32, speed u16, width u16, direction u8,
pressure u8; width divided by 4 and pressure by 255); version-1 points are
24-byte records of six float32 fields, modelled by raw bit patterns (the ×4
speed scale is applied to the bit value and the irrational radian rescale of
the direction is omitted — no claim depends on decoded segment values). -/
def parseV6Points (b : List Nat) (pointVersion : Nat) :
    Nat → Nat → Except Unit (List RmSegment × Nat)
  | 0, pos => .ok ([], pos)
  | n + 1, pos =>
      if pointVersion = 2 then do
        let (xb, p1) ← dvU32E b pos
        let (yb, p2) ← dvU32E b p1
        let (rawSpeed, p3) ← dvU16E b p2
        let (rawWidth, p4) ← dvU16E b p3
        let rawDirection := u8js b p4
        let rawPressure := u8js b (p4 + 1)
        let (rest, p5) ← parseV6Points b pointVersion n (p4 + 2)
        .ok (⟨(xb : ℚ), (yb : ℚ), (rawSpeed : ℚ), (rawDirection : ℚ),
          (rawWidth : ℚ) / 4, (rawPressure : ℚ) / 255⟩ :: rest, p5)
      else do
        let (xb, p1) ← dvU32E b pos
        let (yb, p2) ← dvU32E b p1
        let (sb, p3) ← dvU32E b p2
        let (db, p4) ← dvU32E b p3
        let (wb, p5) ← dvU32E b p4
        let (pb, p6) ← dvU32E b p5
        let (rest, p7) ← parseV6Points b pointVersion n p6
        .ok (⟨(xb : ℚ), (yb : ℚ), (sb : ℚ) * 4, (db : ℚ), (wb : ℚ),
          (pb : ℚ)⟩ :: rest, p7)

/-- Line-item block body (`parseV6LineBlock`): four identifier pairs, the
deletion-length gate (a tombstone yields no stroke), the value sub-block
whose type byte must equal the line-item constant 0x03, then pen, color, the
float64 thickness scale (stored as the stroke width), an ignored starting
length, and the points sub-block whose point count is its byte length
divided by the point record size.  Any tag mismatch or out-of-bounds
`DataView` read throws, which the stream loop turns into skipping the
block. -/
def parseV6LineBlock (b : List Nat) (blockVersion pos : Nat) :
    Except Unit (Option RmStroke) := do
  let p1 ← readTaggedId b pos 1
  let p2 ← readTaggedId b p1 2
  let p3 ← readTaggedId b p2 3
  let p4 ← readTaggedId b p3 4
  let (deletedLength, p5) ← readTaggedInt b p4 5
  if deletedLength > 0 then .ok none
  else
    match checkTag b p5 6 12 with
    | (false, _) => .ok none
    | (true, p6) => do
        let (_valueLength, p7) ← dvU32E b p6
        let itemType := u8js b p7
        if itemType ≠ 3 then .ok none
        else do
          let (pen, p8) ← readTaggedInt b (p7 + 1) 1
          let (color, p9) ← readTaggedInt b p8 2
          let (thicknessScale, p10) ← readTaggedDouble b p9 3
          let (_startingLength, p11) ← readTaggedFloat b p10 4
          let (pointsLength, p12) ← readSubblockHeader b p11 5
          let pointVersion := if blockVersion ≥ 2 then 2 else 1
          let pointSize := if pointVersion = 2 then 14 else 24
          let numPoints := pointsLength / pointSize
          let (segments, _) ← parseV6Points b pointVersion numPoints p12
          .ok (some ⟨pen, color, (thicknessScale : ℚ), segments⟩)

/-- Byte-run reader for the text payload (a sequence of `readUint8`
calls). -/
def readBytesN (b : List Nat) : Nat → Nat → List Nat × Nat
  | 0, pos => ([], pos)
  | n + 1, pos =>
      let v := u8js b pos
      let (rest, p2) := readBytesN b n (pos + 1)
      (v :: rest, p2)

/-- Rect loop of `parseV6GlyphBlock`: per rect four float64 fields
x, y, w, h. -/
def parseV6Rects (b : List Nat) :
    Nat → Nat → Except Unit (List RmHighlightRect × Nat)
  | 0, pos => .ok ([], pos)
  | n + 1, pos => do
      let (xb, p1) ← dvF64E b pos
      let (yb, p2) ← dvF64E b p1
      let (wb, p3) ← dvF64E b p2
      let (hb, p4) ← dvF64E b p3
      let (rest, p5) ← parseV6Rects b n p4
      .ok (⟨(xb : ℚ), (yb : ℚ), (wb : ℚ), (hb : ℚ)⟩ :: rest, p5)

/-- Glyph-item block body (`parseV6GlyphBlock`): the same scene-item
preamble, a value sub-block whose type byte must equal the glyph-item
constant 0x01, optional 4-byte fields at indices 2 and 3, the mandatory
color at index 4, the length-prefixed text sub-block (read then skipped to
its declared end), the rects sub-block (varint count then float64
quadruples); a glyph yielding zero rects is dropped. -/
def parseV6GlyphBlock (b : List Nat) (pos : Nat) :
    Except Unit (Option RmHighlight) := do
  let p1 ← readTaggedId b pos 1
  let p2 ← readTaggedId b p1 2
  let p3 ← readTaggedId b p2 3
  let p4 ← readTaggedId b p3 4
  let (deletedLength, p5) ← readTaggedInt b p4 5
  if deletedLength > 0 then .ok none
  else
    match checkTag b p5 6 12 with
    | (false, _) => .ok none
    | (true, p6) => do
        let (_valueLength, p7) ← dvU32E b p6
        let itemType := u8js b p7
        if itemType ≠ 1 then .ok none
        else do
          let (has2, pA) := checkTag b (p7 + 1) 2 4
          let (_, pB) ← if has2 then dvU32E b pA else .ok ((0 : Nat), pA)
          let (has3, pC) := checkTag b pB 3 4
          let (_, pD) ← if has3 then dvU32E b pC else .ok ((0 : Nat), pC)
          let (color, pE) ← readTaggedInt b pD 4
          let (textSubLen, pF) ← readSubblockHeader b pE 5
          let textSubEnd := pF + textSubLen
          let (strLen, pG) := readVaruint b pF
          let _isAscii := u8js b pG
          let (textBytes, _) := readBytesN b strLen (pG + 1)
          let (rectsSubLen, pH) ← readSubblockHeader b textSubEnd 6
          let _rectsSubEnd := pH + rectsSubLen
          let (numRects, pI) := readVaruint b pH
          let (rects, _) ← parseV6Rects b numRects pI
          if rects.length = 0 then .ok none
          else .ok (some ⟨color, textBytes, rects⟩)

/-- Stream loop of `parseV6File`, with fuel standing for the loop iterations
(each iteration advances the position by at least 8 bytes, so
`b.length + 1` iterations always suffice).  Per iteration: read the 4-byte
block length (an unreadable framing ends the scan), check the declared
bounds (an overrunning block ends the scan), read the four framing bytes,
dispatch on the block type — 0x05 line items and 0x03 glyph items, each
abandoned on a malformed body — and in every case reposition to the block's
declared end `dataStart + blockLength` regardless of how many bytes the body
parser consumed. -/
def parseV6Loop (b : List Nat) :
    Nat → Nat → List RmStroke → List RmHighlight →
    List RmStroke × List RmHighlight
  | 0, _, strokes, highlights => (strokes, highlights)
  | fuel + 1, pos, strokes, highlights =>
      if pos < b.length then
        match dvU32 b pos with
        | none => (strokes, highlights)
        | some blockLength =>
            if pos + 4 + blockLength > b.length then (strokes, highlights)
            else
              let currentVersion := u8js b (pos + 6)
              let blockType := u8js b (pos + 7)
              let dataStart := pos + 8
              let blockEnd := dataStart + blockLength
              if blockType = 5 then
                match parseV6LineBlock b currentVersion dataStart with
                | .ok (some st) =>
                    parseV6Loop b fuel blockEnd (strokes ++ [st]) highlights
                | _ => parseV6Loop b fuel blockEnd strokes highlights
              else if blockType = 3 then
                match parseV6GlyphBlock b dataStart with
                | .ok (some hl) =>
                    parseV6Loop b fuel blockEnd strokes (highlights ++ [hl])
                | _ => parseV6Loop b fuel blockEnd strokes highlights
              else parseV6Loop b fuel blockEnd strokes highlights
      else (strokes, highlights)

/-- Format-6 stream decoder (`parseV6File` in RmParser.ts): scan the tagged
blocks after the 43-byte header; collected strokes form a single layer. -/
def parseV6File (b : List Nat) : RmPage :=
  let r := parseV6Loop b (b.length + 1) HEADER_LENGTH [] []
  ⟨[⟨r.1⟩], r.2, 6⟩

/-! ## Claim C4 -/

/-- A successful 4-byte read implies the position is in bounds. -/
lemma dvU32_isSome_lt {b : List Nat} {pos v : Nat}
    (h : dvU32 b pos = some v) : pos < b.length := by
  by_contra hge
  have hnone : b[pos]? = none := List.getElem?_eq_none (by omega)
  simp [dvU32, hnone] at h

/-- A well-formed line-item block: framing declares 66 body bytes, current
version 2, type 0x05; the body carries one compact 14-byte point. -/
def v6Block1 : List Nat :=
  encU32 66 ++ [0, 1, 2, 5] ++
  [0x1F, 0, 0, 0x2F, 0, 0, 0x3F, 0, 0, 0x4F, 0, 0] ++
  [0x54] ++ encU32 0 ++
  [0x6C] ++ encU32 44 ++
  [3] ++
  [0x14] ++ encU32 2 ++
  [0x24] ++ encU32 0 ++
  [0x38] ++ List.replicate 8 0 ++
  [0x44] ++ encU32 0 ++
  [0x5C] ++ encU32 14 ++
  List.replicate 14 0

/-- A deliberately malformed line-item block: valid framing (2 body bytes,
type 0x05) but a body whose first tag does not match the expected
scene-item tag, so its parse throws and the block is skipped. -/
def v6Block2 : List Nat := encU32 2 ++ [0, 1, 1, 5] ++ [0, 0]

/-- A well-formed glyph-item block: framing declares 74 body bytes, type
0x03; the body carries color 9, a one-character text and one rect. -/
def v6Block3 : List Nat :=
  encU32 74 ++ [0, 1, 1, 3] ++
  [0x1F, 0, 0, 0x2F, 0, 0, 0x3F, 0, 0, 0x4F, 0, 0] ++
  [0x54] ++ encU32 0 ++
  [0x6C] ++ encU32 52 ++
  [1] ++
  [0x44] ++ encU32 9 ++
  [0x5C] ++ encU32 3 ++
  [1, 1, 97] ++
  [0x6C] ++ encU32 33 ++
  [1] ++ List.replicate 32 0

/-- The concrete format-6 stream of the claim: a 43-byte header, one
well-formed line-item block, one malformed block, one well-formed glyph-item
block. -/
def v6Stream : List Nat :=
  List.replicate 43 0 ++ v6Block1 ++ v6Block2 ++ v6Block3

/-- C4: after processing any block the format-6 reader repositions to the
block's declared end `dataStart + blockLength` regardless of how many bytes
the body parser consumed, a malformed body at most loses that one block's
item without desynchronizing or aborting the stream, a block whose framing
cannot be read (or whose declared length overruns the buffer) ends the scan,
and the concrete stream of one well-formed line-item block, one deliberately
malformed block and one well-formed glyph-item block yields exactly one
stroke and one highlight. -/
theorem claim_C4 :
    (∀ (b : List Nat) (fuel pos : Nat) (s : List RmStroke)
       (h : List RmHighlight), dvU32 b pos = none →
       parseV6Loop b (fuel + 1) pos s h = (s, h))
  ∧ (∀ (b : List Nat) (fuel pos : Nat) (s : List RmStroke)
       (h : List RmHighlight) (len : Nat), dvU32 b pos = some len →
       pos + 4 + len > b.length →
       parseV6Loop b (fuel + 1) pos s h = (s, h))
  ∧ (∀ (b : List Nat) (fuel pos : Nat) (s : List RmStroke)
       (h : List RmHighlight) (len : Nat), dvU32 b pos = some len →
       pos + 4 + len ≤ b.length →
       ∃ s2 h2, parseV6Loop b (fuel + 1) pos s h
           = parseV6Loop b fuel (pos + 8 + len) s2 h2
         ∧ (s2 = s ∨ ∃ st, s2 = s ++ [st])
         ∧ (h2 = h ∨ ∃ hl, h2 = h ++ [hl]))
  ∧ ((parseV6File v6Stream).layers.map fun l => l.strokes.length) = [1]
  ∧ (parseV6File v6Stream).highlights.length = 1 := by
  refine ⟨?_, ?_, ?_, by decide, by decide⟩
  · intro b fuel pos s h hnone
    by_cases hp : pos < b.length
    · simp [parseV6Loop, hp, hnone]
    · simp [parseV6Loop, hp]
  · intro b fuel pos s h len hr hb2
    by_cases hp : pos < b.length
    · simp [parseV6Loop, hp, hr, hb2]
    · simp [parseV6Loop, hp]
  · intro b fuel pos s h len hr hb2
    have hp : pos < b.length := dvU32_isSome_lt hr
    have hbnot : ¬(pos + 4 + len > b.length) := by omega
    by_cases h5 : u8js b (pos + 7) = 5
    · cases hL : parseV6LineBlock b (u8js b (pos + 6)) (pos + 8) with
      | error e =>
          exact ⟨s, h, by simp [parseV6Loop, hp, hr, hbnot, h5, hL],
            Or.inl rfl, Or.inl rfl⟩
      | ok v =>
          cases v with
          | none =>
              exact ⟨s, h, by simp [parseV6Loop, hp, hr, hbnot, h5, hL],
                Or.inl rfl, Or.inl rfl⟩
          | some st =>
              exact ⟨s ++ [st], h,
                by simp [parseV6Loop, hp, hr, hbnot, h5, hL],
                Or.inr ⟨st, rfl⟩, Or.inl rfl⟩
    · by_cases h3 : u8js b (pos + 7) = 3
      · cases hG : parseV6GlyphBlock b (pos + 8) with
        | error e =>
            exact ⟨s, h, by simp [parseV6Loop, hp, hr, hbnot, h5, h3, hG],
              Or.inl rfl, Or.inl rfl⟩
        | ok v =>
            cases v with
            | none =>
                exact ⟨s, h,
                  by simp [parseV6Loop, hp, hr, hbnot, h5, h3, hG],
                  Or.inl rfl, Or.inl rfl⟩
            | some hl =>
                exact ⟨s, h ++ [hl],
                  by simp [parseV6Loop, hp, hr, hbnot, h5, h3, hG],
                  Or.inl rfl, Or.inr ⟨hl, rfl⟩⟩
      · exact ⟨s, h, by simp [parseV6Loop, hp, hr, hbnot, h5, h3],
          Or.inl rfl, Or.inl rfl⟩

/-- C4 witness: the framing-failure conclusion applied at a concrete empty
stream. -/
theorem claim_C4_witness :
    dvU32 ([] : List Nat) 0 = none
  ∧ parseV6Loop ([] : List Nat) 1 0 [] [] = ([], []) :=
  ⟨rfl, claim_C4.1 [] 0 0 [] [] rfl⟩

end Slate
